import Mathlib

/-!
Verification of the `sequence-web` server core against its specification.

Shallow embedding of the server source:
* `src/server/src/game-logic/deck.ts` (unnamed part 001) — seeded deck engine
* `src/server/src/game-logic/sequence.ts`                — sequence detector
* `src/server/src/index.ts`                              — turn execution,
  room lifecycle, join/check-name, cancel-rematch
* `src/server/src/storage.ts`                            — in-memory registry
* `src/server/src/types.ts`                              — data model

JavaScript machine arithmetic (32-bit coercions in the mulberry32 PRNG) is
modelled on `Nat` with explicit `% 2^32`; JS array indexing with possibly
negative indices is modelled via `Int`-indexed lookup returning `Option`.
-/

set_option maxRecDepth 4000

namespace SequenceWeb

/-! ## Data model (`types.ts`) -/

/-- Card suits (`type Suit`). -/
inductive Suit where
  | spades | hearts | diamonds | clubs
deriving DecidableEq, Repr

/-- Card ranks (`type Rank`, `'A' | '2' | ... | 'T' | 'J' | 'Q' | 'K'`). -/
inductive Rank where
  | A | n2 | n3 | n4 | n5 | n6 | n7 | n8 | n9 | T | J | Q | K
deriving DecidableEq, Repr

/-- A playing card (`interface Card`). -/
structure Card where
  suit : Suit
  rank : Rank
deriving DecidableEq, Repr

/-- A board-cell card: either a real card or the literal `'CORNER'`
(`type BoardCard = Card | 'CORNER'`). -/
inductive BoardCard where
  | corner
  | c (card : Card)
deriving DecidableEq, Repr

/-- Team colors (`type TeamColor`). -/
inductive TeamColor where
  | green | blue | red
deriving DecidableEq, Repr

/-- A chip on the board (`interface Chip`). -/
structure Chip where
  color : TeamColor
  partOfSequence : Bool
deriving DecidableEq, Repr

/-- A single board cell (`interface BoardCell`). -/
structure BoardCell where
  card : BoardCard
  chip : Option Chip
  row : Nat
  col : Nat
deriving DecidableEq, Repr

/-- The board: `BoardCell[][]`. -/
abbrev Board := List (List BoardCell)

/-- A recorded sequence (`interface Sequence`); cells are `{row, col}` pairs.
JS numbers that may be produced by signed arithmetic are modelled as `Int`. -/
structure Seq where
  teamColor : TeamColor
  cells : List (Int × Int)
deriving DecidableEq, Repr

/-- `isOneEyedJack` from `types.ts`. -/
def isOneEyedJack (card : Card) : Bool :=
  card.rank == Rank.J && (card.suit == Suit.spades || card.suit == Suit.hearts)

/-- `isTwoEyedJack` from `types.ts`. -/
def isTwoEyedJack (card : Card) : Bool :=
  card.rank == Rank.J && (card.suit == Suit.diamonds || card.suit == Suit.clubs)

/-! ## List helpers modelling JS array primitives -/

/-- JS array indexing `l[i]` for an arbitrary integer index: `undefined`
(`none`) for negative or out-of-range indices. -/
def listGetInt (l : List α) (i : Int) : Option α :=
  match i with
  | Int.ofNat n => l.get? n
  | Int.negSucc _ => none

/-- Replace element `n` of a list by `f` applied to it; out-of-range is a
no-op (models in-place mutation of `l[n]`). -/
def listSetAt (l : List α) (n : Nat) (f : α → α) : List α :=
  match l, n with
  | [], _ => []
  | a :: t, 0 => f a :: t
  | a :: t, Nat.succ m => a :: listSetAt t m f

/-- Swap elements `i` and `j` of a list (the Fisher-Yates swap
`temp = d[i]; d[i] = d[j]; d[j] = temp`). -/
def listSwap (l : List α) (i j : Nat) : List α :=
  match l.get? i, l.get? j with
  | some a, some b => (l.set i b).set j a
  | _, _ => l

/-- JS whitespace for `String.prototype.trim` (the ASCII characters that
occur in practice; written out so the kernel can evaluate it). -/
def isJsSpace (c : Char) : Bool :=
  c == ' ' || c == '\t' || c == '\n' || c == '\r'

/-- JS `name.trim()` over the character list. -/
def jsTrim (s : String) : String :=
  String.mk (((s.data.dropWhile isJsSpace).reverse.dropWhile isJsSpace).reverse)

/-- ASCII lower-casing of one character (JS `toLowerCase` on the name
alphabet used by the server). -/
def lowerChar (c : Char) : Char :=
  if 65 ≤ c.toNat && c.toNat ≤ 90 then Char.ofNat (c.toNat + 32) else c

/-- JS `s.toLowerCase()`. -/
def jsToLower (s : String) : String :=
  String.mk (s.data.map lowerChar)

/-- JS `s.slice(0, n)`. -/
def jsTake (s : String) (n : Nat) : String :=
  String.mk (s.data.take n)

/-- Mutate the first element satisfying `pred` (models JS `find` followed by
in-place mutation of the found object). -/
def updateFirst (l : List α) (pred : α → Bool) (f : α → α) : List α :=
  match l with
  | [] => []
  | a :: t => if pred a then f a :: t else a :: updateFirst t pred f

/-! ## Deck engine (`game-logic/deck.ts`, source part 001) -/

/-- `SUITS` constant from `deck.ts`. -/
def SUITS : List Suit := [Suit.spades, Suit.hearts, Suit.diamonds, Suit.clubs]

/-- `RANKS` constant from `deck.ts`. -/
def RANKS : List Rank :=
  [Rank.A, Rank.n2, Rank.n3, Rank.n4, Rank.n5, Rank.n6, Rank.n7, Rank.n8,
   Rank.n9, Rank.T, Rank.J, Rank.Q, Rank.K]

/-- 2^32, the modulus of all JS 32-bit coercions. -/
def U32MOD : Nat := 4294967296

/-- One step of the mulberry32 PRNG from `deck.ts`:

```
let t = (seed += 0x6d2b79f5)
t = Math.imul(t ^ (t >>> 15), t | 1)
t ^= t + Math.imul(t ^ (t >>> 7), t | 61)
return ((t ^ (t >>> 14)) >>> 0) / 4294967296
```

Every JS bitwise operator coerces to 32 bits, and signed/unsigned views
share a bit pattern mod 2^32, so state and intermediates live in `Nat`
reduced `% 2^32`.  Returns `(new seed state, 32-bit output)`; the JS float
result is `output / 2^32`. -/
def mulberry32Next (seed : Nat) : Nat × Nat :=
  let s := (seed + 0x6d2b79f5) % U32MOD
  let t1 := ((Nat.xor s (Nat.shiftRight s 15)) * (Nat.lor s 1)) % U32MOD
  let t2 := Nat.xor t1
    ((t1 + ((Nat.xor t1 (Nat.shiftRight t1 7)) * (Nat.lor t1 61)) % U32MOD) % U32MOD)
  (s, Nat.xor t2 (Nat.shiftRight t2 14))

/-- `createFullDeck` from `deck.ts`: two standard 52-card decks,
suits-outer/ranks-inner, concatenated. -/
def createFullDeck : List Card :=
  (List.range 2).flatMap fun _ =>
    SUITS.flatMap fun suit => RANKS.map fun rank => { suit := suit, rank := rank }

/-- One Fisher-Yates iteration at index `i`: draw, compute
`j = floor(rng() * (i+1))` (exact in doubles since the product has fewer
than 53 bits, hence `= out * (i+1) / 2^32` in integers), swap. -/
def shuffleStep (acc : List Card × Nat) (i : Nat) : List Card × Nat :=
  let (s, out) := mulberry32Next acc.2
  let j := out * (i + 1) / U32MOD
  (listSwap acc.1 i j, s)

/-- The list `[n-1, n-2, ..., 1]` of Fisher-Yates indices for
`for (let i = deck.length - 1; i > 0; i--)`. -/
def fyIndices (n : Nat) : List Nat :=
  ((List.range (n - 1)).reverse).map (· + 1)

/-- `createShuffledDeck(seed)` from `deck.ts`. -/
def createShuffledDeck (seed : Nat) : List Card :=
  (((fyIndices createFullDeck.length)).foldl shuffleStep (createFullDeck, seed)).1

/-- `drawCards(deck, cursor, count)` from `deck.ts`: `deck.slice(cursor,
cursor + count)`. -/
def drawCards (deck : List Card) (cursor count : Nat) : List Card :=
  (deck.drop cursor).take count

/-- `getHandSize(playerCount)` from `deck.ts`: 7 for 2 players, 6 for 3, 6
otherwise. -/
def getHandSize (playerCount : Nat) : Nat :=
  if playerCount == 2 then 7
  else if playerCount == 3 then 6
  else 6

/-! ### Spec-side deck description (for the C5 refinement claim)

These definitions follow the wording of spec §4.4.2, independently of the
source's loop realisation, to be compared with the definitions above. -/

/-- Modelled from the spec: one `next()` of the reference mulberry32
generator, stated exactly as the spec formula: `seed += 0x6D2B79F5;
t = imul(seed ^ (seed>>>15), seed | 1); t ^= t + imul(t ^ (t>>>7), t | 61);
result ((t ^ (t>>>14)) >>> 0) / 2^32`. -/
def specMulberryNext (seed : Nat) : Nat × Nat :=
  let seed' := (seed + 0x6D2B79F5) % 2 ^ 32
  let t := (Nat.xor seed' (seed' >>> 15) * Nat.lor seed' 1) % 2 ^ 32
  let t' := Nat.xor t ((t + (Nat.xor t (t >>> 7) * Nat.lor t 61) % 2 ^ 32) % 2 ^ 32)
  (seed', Nat.xor t' (t' >>> 14))

/-- Modelled from the spec: the two concatenated standard 52-card decks
(4 suits × 13 ranks, listed twice). -/
def specFullDeck : List Card :=
  (SUITS.flatMap fun s => RANKS.map fun r => { suit := s, rank := r }) ++
    (SUITS.flatMap fun s => RANKS.map fun r => { suit := s, rank := r })

/-- Modelled from the spec: Fisher-Yates "iterates `i` from `n-1` down to
`1`, `j = floor(next() * (i+1))`, swap", written as a downward recursion
on `i`. -/
def specFisherYates (d : List Card) (s : Nat) : Nat → List Card
  | 0 => d
  | Nat.succ i =>
    let (s', out) := specMulberryNext s
    let j := out * (i + 2) / 2 ^ 32
    specFisherYates (listSwap d (i + 1) j) s' i

/-- Modelled from the spec: `shuffle(seed) → [104]Card`. -/
def specShuffle (seed : Nat) : List Card :=
  specFisherYates specFullDeck seed (specFullDeck.length - 1)

/-! ## Board access -/

/-- `board[row]?.[col]` with integer indices. -/
def boardGet (board : Board) (r c : Int) : Option BoardCell :=
  (listGetInt board r).bind fun row => listGetInt row c

/-- In-place update of `board[row][col]` (no-op when out of range, as the
mutation is guarded by a successful lookup in the source). -/
def boardModify (board : Board) (r c : Int) (f : BoardCell → BoardCell) : Board :=
  match r, c with
  | Int.ofNat rn, Int.ofNat cn => listSetAt board rn (fun row => listSetAt row cn f)
  | _, _ => board

/-! ## Sequence detector (`game-logic/sequence.ts`) -/

/-- The four scan directions from `sequence.ts` (`DIRECTIONS`). -/
def DIRECTIONS : List (Int × Int) := [(0, 1), (1, 0), (1, 1), (1, -1)]

/-- `cellBelongsToTeam` from `sequence.ts`: corners belong to every team;
otherwise the chip color must match. -/
def cellBelongsToTeam (cell : BoardCell) (teamColor : TeamColor) : Bool :=
  match cell.card with
  | BoardCard.corner => true
  | BoardCard.c _ =>
    match cell.chip with
    | some chip => chip.color == teamColor
    | none => false

/-- The forward while-loop of `findMaxLineInDirection`: walk from
`(r, c)` by `(dr, dc)` while inside `[0,10)²` and the cell belongs to the
team, collecting coordinates.  `fuel` bounds the walk; every direction used
moves monotonically so 100 steps always suffice. -/
def scanLine (board : Board) (r c dr dc : Int) (team : TeamColor) : Nat → List (Int × Int)
  | 0 => []
  | Nat.succ fuel =>
    if 0 ≤ r && r < 10 && 0 ≤ c && c < 10 then
      match boardGet board r c with
      | some cell =>
        if cellBelongsToTeam cell team then
          (r, c) :: scanLine board (r + dr) (c + dc) dr dc team fuel
        else []
      | none => []
    else []

/-- `findMaxLineInDirection` from `sequence.ts`: the forward walk, returned
only when at least 5 cells long. -/
def findMaxLineInDirection (board : Board) (r c dr dc : Int) (team : TeamColor) :
    Option (List (Int × Int)) :=
  let cells := scanLine board r c dr dc team 100
  if 5 ≤ cells.length then some cells else none

/-- The backward while-loop of `findLineStart`: step against the direction
while the previous cell is in bounds and belongs to the team. -/
def findLineStart (board : Board) (r c dr dc : Int) (team : TeamColor) : Nat → Int × Int
  | 0 => (r, c)
  | Nat.succ fuel =>
    let pr := r - dr
    let pc := c - dc
    if pr < 0 || 10 ≤ pr || pc < 0 || 10 ≤ pc then (r, c)
    else
      match boardGet board pr pc with
      | some cell =>
        if cellBelongsToTeam cell team then findLineStart board pr pc dr dc team fuel
        else (r, c)
      | none => (r, c)

/-- `findCompleteLine` from `sequence.ts`. -/
def findCompleteLine (board : Board) (r c dr dc : Int) (team : TeamColor) :
    Option (List (Int × Int)) :=
  let s := findLineStart board r c dr dc team 100
  findMaxLineInDirection board s.1 s.2 dr dc team

/-- `LineInfo` from `sequence.ts`. -/
structure LineInfo where
  cells : List (Int × Int)
  direction : Int × Int
  sequenceCount : Nat
deriving DecidableEq, Repr

/-- The string key `` `${r},${c},${dr},${dc}` `` is injective in its integer
components, so `processedKeys` is modelled as a list of 4-tuples. -/
abbrev LineKey := Int × Int × Int × Int

/-- Row-major enumeration of the 10×10 coordinates scanned by
`findAllLines`. -/
def allCoords : List (Int × Int) :=
  (List.range 10).flatMap fun r =>
    (List.range 10).map fun c => ((r : Int), (c : Int))

/-- The per-direction body of the `findAllLines` loops, threading
`(processedKeys, lines)`. -/
def findAllLinesDirStep (board : Board) (team : TeamColor) (r c : Int)
    (acc : List LineKey × List LineInfo) (d : Int × Int) :
    List LineKey × List LineInfo :=
  let s := findLineStart board r c d.1 d.2 team 100
  let key : LineKey := (s.1, s.2, d.1, d.2)
  if key ∈ acc.1 then acc
  else
    match findMaxLineInDirection board s.1 s.2 d.1 d.2 team with
    | some line =>
      (key :: acc.1,
        acc.2 ++ [{ cells := line, direction := d,
                    sequenceCount := if 10 ≤ line.length then 2 else 1 }])
    | none => (key :: acc.1, acc.2)

/-- `findAllLines` from `sequence.ts`. -/
def findAllLines (board : Board) (team : TeamColor) : List LineInfo :=
  (allCoords.foldl
    (fun acc rc =>
      match boardGet board rc.1 rc.2 with
      | none => acc
      | some cell =>
        if cellBelongsToTeam cell team then
          DIRECTIONS.foldl (findAllLinesDirStep board team rc.1 rc.2) acc
        else acc)
    ([], [])).2

/-- The `hasNewCell` predicate inside `findNewSequences`: some cell of the
line is a non-corner holding a chip not yet `partOfSequence`. -/
def lineHasNewCell (board : Board) (line : LineInfo) : Bool :=
  line.cells.any fun rc =>
    match boardGet board rc.1 rc.2 with
    | none => false
    | some cell =>
      match cell.card with
      | BoardCard.corner => false
      | BoardCard.c _ =>
        match cell.chip with
        | some chip => !chip.partOfSequence
        | none => false

/-- `countSequences` from `sequence.ts`. -/
def countSequences (sequences : List Seq) (teamColor : TeamColor) : Nat :=
  (sequences.filter fun s => s.teamColor == teamColor).length

/-- `countSequencesFromBoard` (total board sequence count: the sum of
`sequenceCount` over all lines; the same sum computed inline in
`findNewSequences`). -/
def countSequencesFromBoard (board : Board) (team : TeamColor) : Nat :=
  (findAllLines board team).foldl (fun s l => s + l.sequenceCount) 0

/-- `findNewSequences` from `sequence.ts`. -/
def findNewSequences (board : Board) (teamColor : TeamColor)
    (existingSequences : List Seq) : List Seq :=
  let allLines := findAllLines board teamColor
  let existingCount := countSequences existingSequences teamColor
  let totalSequenceCount : Nat := allLines.foldl (fun s l => s + l.sequenceCount) 0
  let newCount : Int := (totalSequenceCount : Int) - (existingCount : Int)
  if 0 < newCount then
    match allLines.find? (lineHasNewCell board) with
    | none => []
    | some line =>
      let base := [{ teamColor := teamColor, cells := line.cells : Seq }]
      if line.sequenceCount == 2 && decide (2 ≤ newCount) then
        let existingFromThisLine :=
          (existingSequences.filter fun s =>
            s.teamColor == teamColor &&
              s.cells.any fun cc => line.cells.any fun lc => lc == cc).length
        if existingFromThisLine == 0 then
          base ++ [{ teamColor := teamColor, cells := line.cells }]
        else base
      else base
  else []

/-- Set `partOfSequence := true` on the chip at `(r, c)` if present. -/
def markChip (board : Board) (r c : Int) : Board :=
  boardModify board r c fun cell =>
    match cell.chip with
    | some chip => { cell with chip := some { chip with partOfSequence := true } }
    | none => cell

/-- `markSequenceCells` from `sequence.ts`: mark the sequence's own cells,
then the full maximal line through its first cell in each direction. -/
def markSequenceCells (board : Board) (sequence : Seq) : Board :=
  match sequence.cells with
  | [] => board
  | firstCell :: _ =>
    let board1 := sequence.cells.foldl (fun b rc => markChip b rc.1 rc.2) board
    DIRECTIONS.foldl
      (fun b d =>
        match findCompleteLine b firstCell.1 firstCell.2 d.1 d.2 sequence.teamColor with
        | some line => line.foldl (fun b2 rc => markChip b2 rc.1 rc.2) b
        | none => b)
      board1

/-- `checkWinCondition` from `sequence.ts`: the team has at least 2 recorded
sequences. -/
def checkWinCondition (sequences : List Seq) (teamColor : TeamColor) : Bool :=
  decide (2 ≤ countSequences sequences teamColor)

/-! ## Game state (`types.ts`) and turn execution (`index.ts`) -/

/-- Game status (`'active' | 'finished'`). -/
inductive GStatus where
  | active | finished
deriving DecidableEq, Repr

/-- A game participant (`interface GamePlayer`). -/
structure GamePlayer where
  playerId : String
  playerName : String
  teamColor : TeamColor
  isAI : Bool
  hand : List Card
deriving DecidableEq, Repr

/-- A turn record (`interface Turn`). -/
structure Turn where
  playerId : String
  cardIndex : Int
  row : Int
  col : Int
  cardPlayed : Card
  timestamp : Nat
deriving DecidableEq, Repr

/-- The game entity (`interface Game`); fields not read or written by the
modelled handlers (`teams`, `boardType`) are omitted. -/
structure Game where
  id : String
  roomId : String
  deckSeed : Nat
  status : GStatus
  players : List GamePlayer
  board : Board
  sequences : List Seq
  currentTurnPlayerId : String
  deckCursor : Nat
  shuffledDeck : List Card
  turnHistory : List Turn
  winnerId : Option String
  createdAt : Nat
  finishedAt : Option Nat
  lastActivityAt : Nat
deriving DecidableEq, Repr

/-- Outbound duplex events relevant to the modelled handlers, with the
payload fields the claims mention. -/
inductive Event where
  | turn_made (gameId playerId : String) (cardPlayed : Card) (row col : Int)
      (chipPlaced : Option Chip) (newSequences : List Seq) (nextPlayerId : String)
  | game_finished (gameId : String) (winnerId : Option String)
  | rematch_cancelled (gameId reason : String)
  | player_joined (roomId playerId : String)
  | player_left (roomId playerId newHostId : String)
  | room_updated (roomId : String)
deriving DecidableEq, Repr

/-- The result object of `executeTurn` (`interface TurnResult`). -/
inductive TurnResult where
  | ok
  | err (msg : String)
deriving DecidableEq, Repr

/-- The move-validation block of `executeTurn` (`index.ts` lines 835-855):
`none` means the move is accepted, `some msg` the rejection message. -/
def validateMove (card : Card) (cell : BoardCell) (teamColor : TeamColor) : Option String :=
  if isTwoEyedJack card then
    if cell.chip.isSome || cell.card == BoardCard.corner then
      some "Invalid target for two-eyed jack"
    else none
  else if isOneEyedJack card then
    match cell.chip with
    | none => some "Invalid target for one-eyed jack"
    | some chip =>
      if chip.color == teamColor || chip.partOfSequence then
        some "Invalid target for one-eyed jack"
      else none
  else
    match cell.card with
    | BoardCard.corner => some "Cannot play on corner"
    | BoardCard.c cellCard =>
      if cell.chip.isSome then some "Cell is occupied"
      else if cellCard.rank == card.rank && cellCard.suit == card.suit then none
      else some "Card does not match cell"

/-- The chip written by an accepted move (`index.ts` lines 860-867): a
one-eyed Jack clears the chip, anything else places the caller's color with
`partOfSequence = false`. -/
def moveChip (card : Card) (teamColor : TeamColor) : Option Chip :=
  if isOneEyedJack card then none else some { color := teamColor, partOfSequence := false }

/-- Detection-and-marking loop of `executeTurn` (lines 870-874): each new
sequence is marked on the board and appended to the recorded list, in batch
order. -/
def applyNewSequences (board : Board) (sequences newSequences : List Seq) :
    Board × List Seq :=
  newSequences.foldl (fun acc sq => (markSequenceCells acc.1 sq, acc.2 ++ [sq]))
    (board, sequences)

/-- JS `findIndex` (first matching index, `-1` when absent). -/
def findIndexJS (l : List α) (p : α → Bool) : Int :=
  match l with
  | [] => -1
  | a :: t =>
    if p a then 0
    else
      let r := findIndexJS t p
      if r < 0 then -1 else r + 1

/-- Turn advancement at the end of `executeTurn` (lines 906-910):
`nextIndex = (findIndex(current) + 1) % players.length`, with JS's `-1`
fallback for a missing current player.  The `players[nextIndex]!` non-null
assertion is modelled by falling back to the unchanged id. -/
def rotateTurn (players : List GamePlayer) (current : String) : String :=
  let currentIndex := findIndexJS players (fun p => p.playerId == current)
  let nextIndex := ((currentIndex + 1) % (players.length : Int)).toNat
  match players.get? nextIndex with
  | some p => p.playerId
  | none => current

/-- The hand update of an executed turn (`index.ts` lines 885-893): splice
out the played card (`cardIndex` is in range on every reachable call), then
draw `shuffledDeck[deckCursor]` when the cursor has not reached the end of
the deck. -/
def nextHand (player : GamePlayer) (cardIndex : Int) (deck : List Card)
    (cursor : Nat) : List Card :=
  let hand1 := match cardIndex with
    | Int.ofNat n => player.hand.eraseIdx n
    | Int.negSucc _ => player.hand
  match deck.get? cursor with
  | some newCard => if decide (cursor < deck.length) then hand1 ++ [newCard] else hand1
  | none => hand1

/-- The cursor update of an executed turn: advance by one exactly when a
card was drawn. -/
def nextCursor (deck : List Card) (cursor : Nat) : Nat :=
  if decide (cursor < deck.length) && (deck.get? cursor).isSome then cursor + 1
  else cursor

/-- The success branch of `executeTurn` (everything after validation),
given the resolved `player`, `card` and target coordinates. -/
def executeTurnCore (game : Game) (playerId : String) (cardIndex row col : Int)
    (player : GamePlayer) (card : Card) (now : Nat) : Game × List Event × TurnResult :=
  let board1 := boardModify game.board row col
    (fun c0 => { c0 with chip := moveChip card player.teamColor })
  let newSequences := findNewSequences board1 player.teamColor game.sequences
  let marked := applyNewSequences board1 game.sequences newSequences
  let gameFinished := checkWinCondition marked.2 player.teamColor
  let cursor2 := nextCursor game.shuffledDeck game.deckCursor
  let players2 := updateFirst game.players (fun p => p.playerId == playerId)
    (fun p => { p with hand := nextHand player cardIndex game.shuffledDeck game.deckCursor })
  let turnRec : Turn :=
    { playerId := playerId, cardIndex := cardIndex, row := row, col := col,
      cardPlayed := card, timestamp := now }
  let nextTurnPid :=
    if gameFinished then game.currentTurnPlayerId
    else rotateTurn players2 game.currentTurnPlayerId
  let game' : Game :=
    { game with
      status := if gameFinished then GStatus.finished else game.status
      players := players2
      board := marked.1
      sequences := marked.2
      currentTurnPlayerId := nextTurnPid
      deckCursor := cursor2
      turnHistory := game.turnHistory ++ [turnRec]
      winnerId := if gameFinished then some playerId else game.winnerId
      finishedAt := if gameFinished then some now else game.finishedAt
      lastActivityAt := now }
  let chipAfter := (boardGet marked.1 row col).bind (fun c0 => c0.chip)
  let events :=
    [Event.turn_made game.id playerId card row col chipAfter newSequences nextTurnPid]
      ++ (if gameFinished then [Event.game_finished game.id (some playerId)] else [])
  (game', events, TurnResult.ok)

/-- `executeTurn` from `index.ts` (lines 825-939), as a function from the
game to the updated game, the emitted events, and the result. -/
def executeTurn (game : Game) (playerId : String) (cardIndex row col : Int)
    (now : Nat) : Game × List Event × TurnResult :=
  match game.players.find? (fun p => p.playerId == playerId) with
  | none => (game, [], TurnResult.err "Player not found")
  | some player =>
    match listGetInt player.hand cardIndex with
    | none => (game, [], TurnResult.err "Invalid card index")
    | some card =>
      match boardGet game.board row col with
      | none => (game, [], TurnResult.err "Invalid cell")
      | some cell =>
        match validateMove card cell player.teamColor with
        | some e => (game, [], TurnResult.err e)
        | none => executeTurnCore game playerId cardIndex row col player card now

/-- The `turn` route handler (`index.ts` lines 516-551): storage lookup and
session checks in front of `executeTurn`.  `game?` is the result of
`storage.getGame`. -/
def turnHandler (game? : Option Game) (callerPid : String) (cardIndex row col : Int)
    (now : Nat) : Option Game × List Event × TurnResult :=
  match game? with
  | none => (none, [], TurnResult.err "Game not found")
  | some game =>
    if game.status != GStatus.active then
      (some game, [], TurnResult.err "Game is not active")
    else if game.currentTurnPlayerId != callerPid then
      (some game, [], TurnResult.err "Not your turn")
    else if (game.players.find? (fun p => p.playerId == callerPid)).isNone then
      (some game, [], TurnResult.err "Player not in game")
    else
      let r := executeTurn game callerPid cardIndex row col now
      (some r.1, r.2.1, r.2.2)

/-! ## Rooms (`types.ts`, handlers in `index.ts`) -/

/-- Room modes (`type RoomType = '1v1' | '2v2'`). -/
inductive RoomType where
  | oneVone | twoVtwo
deriving DecidableEq, Repr

/-- Room status (`type RoomStatus`). -/
inductive RoomStatus where
  | waiting | playing | finished
deriving DecidableEq, Repr

/-- A room member (`interface RoomPlayer`); `team` holds 1 or 2. -/
structure RoomPlayer where
  playerId : String
  playerName : String
  isHost : Bool
  isReady : Bool
  isAI : Bool
  team : Nat
  joinedAt : Nat
deriving DecidableEq, Repr

/-- The room entity (`interface Room`); `boardType` is never read by the
modelled handlers and is omitted. -/
structure Room where
  id : String
  name : String
  rtype : RoomType
  password : Option String
  status : RoomStatus
  hostId : String
  players : List RoomPlayer
  maxPlayers : Nat
  gameId : Option String
  createdAt : Nat
deriving DecidableEq, Repr

/-- Room construction in the create-room handler (`index.ts` lines
248-272): the caller is sole host, ready, team 1; `maxPlayers` is 2 for 1v1
and 4 for 2v2; the name is trimmed to 30 characters.  `password` is the
request password with JS falsiness applied (`password || undefined`). -/
def mkRoom (roomId name : String) (rtype : RoomType) (password : Option String)
    (hostPid hostName : String) (now : Nat) : Room :=
  { id := roomId
    name := jsTake (jsTrim name) 30
    rtype := rtype
    password := password
    status := RoomStatus.waiting
    hostId := hostPid
    players := [{ playerId := hostPid, playerName := hostName, isHost := true,
                  isReady := true, isAI := false, team := 1, joinedAt := now }]
    maxPlayers := if rtype == RoomType.oneVone then 2 else 4
    gameId := none
    createdAt := now }

/-- The join-room handler (`index.ts` lines 282-343) restricted to the room
mutation.  `callerInRoom` models `session.currentRoomId` being set. -/
def joinRoomOp (room : Room) (pid pname : String) (password? : Option String)
    (callerInRoom : Bool) (now : Nat) : Room × List Event × Except String Unit :=
  if room.status != RoomStatus.waiting then
    (room, [], Except.error "Room is not accepting players")
  else if room.maxPlayers ≤ room.players.length then
    (room, [], Except.error "Room is full")
  else if (match room.password with
           | some p => password? != some p
           | none => false) then
    (room, [], Except.error "Wrong password")
  else if callerInRoom then
    (room, [], Except.error "Already in a room")
  else
    let team1Count := (room.players.filter fun p => p.team == 1).length
    let team2Count := (room.players.filter fun p => p.team == 2).length
    let team := if team1Count ≤ team2Count then 1 else 2
    let player : RoomPlayer :=
      { playerId := pid, playerName := pname, isHost := false, isReady := false,
        isAI := false, team := team, joinedAt := now }
    ({ room with players := room.players ++ [player] },
      [Event.player_joined room.id pid, Event.room_updated room.id],
      Except.ok ())

/-- The `leaveRoom` helper (`index.ts` lines 736-765).  Returns `none` when
the emptied room is deleted; a departing host's role passes to the first
non-AI player remaining (the earliest joined, as joins append). -/
def leaveRoomOp (room : Room) (pid : String) : Option Room × List Event :=
  let playerIndex := findIndexJS room.players (fun p => p.playerId == pid)
  if playerIndex == -1 then (some room, [])
  else
    let wasHost := ((listGetInt room.players playerIndex).map (fun p => p.isHost)).getD false
    let players1 := room.players.eraseIdx playerIndex.toNat
    if players1.isEmpty then (none, [])
    else
      let room2 :=
        if wasHost then
          match players1.find? (fun p => !p.isAI) with
          | some newHost =>
            { room with
              players := updateFirst players1 (fun p => !p.isAI)
                (fun p => { p with isHost := true })
              hostId := newHost.playerId }
          | none => { room with players := players1 }
        else { room with players := players1 }
      (some room2,
        [Event.player_left room.id pid room2.hostId, Event.room_updated room.id])

/-- The set-ready handler (`index.ts` lines 364-385) restricted to the room
mutation. -/
def setReadyOp (room : Room) (pid : String) (ready : Bool) :
    Room × List Event × Except String Unit :=
  match room.players.find? (fun p => p.playerId == pid) with
  | none => (room, [], Except.error "Not in room")
  | some _ =>
    ({ room with
       players := updateFirst room.players (fun p => p.playerId == pid)
         (fun p => { p with isReady := ready }) },
      [Event.room_updated room.id], Except.ok ())

/-- The change-team handler (`index.ts` lines 388-423) restricted to the
room mutation. -/
def changeTeamOp (room : Room) (pid : String) (team : Nat) :
    Room × List Event × Except String Unit :=
  if team != 1 && team != 2 then (room, [], Except.error "Invalid team")
  else if room.rtype != RoomType.twoVtwo then
    (room, [], Except.error "Team change only allowed in 2v2")
  else
    match room.players.find? (fun p => p.playerId == pid) with
    | none => (room, [], Except.error "Not in room")
    | some _ =>
      let teamCount :=
        (room.players.filter fun p => p.team == team && p.playerId != pid).length
      if 2 ≤ teamCount then (room, [], Except.error "Team is full")
      else
        ({ room with
           players := updateFirst room.players (fun p => p.playerId == pid)
             (fun p => { p with team := team }) },
          [Event.room_updated room.id], Except.ok ())

/-- One iteration of the AI-fill loop of the start-game handler
(`index.ts` lines 447-462): append one AI player (not host, ready, AI) to
the smaller team (team 1 on ties).  The random `ai_<uuid>` ids are
modelled by deterministic fresh ids. -/
def aiFillStep (now : Nat) (ps : List RoomPlayer) (i : Nat) : List RoomPlayer :=
  let team1Count := (ps.filter fun p => p.team == 1).length
  let team2Count := (ps.filter fun p => p.team == 2).length
  let team := if team1Count ≤ team2Count then 1 else 2
  ps ++ [{ playerId := "ai_" ++ toString i, playerName := "Bot " ++ toString (i + 1),
           isHost := false, isReady := true, isAI := true, team := team,
           joinedAt := now }]

def fillAI (room : Room) (now : Nat) : Room :=
  let missing := room.maxPlayers - room.players.length
  { room with players := (List.range missing).foldl (aiFillStep now) room.players }

/-- The start-game handler (`index.ts` lines 426-513) restricted to the
room mutation: host/status gate, AI fill, then `status = playing` and the
new game id linked. -/
def startGameOp (room : Room) (callerPid gameId : String) (now : Nat) :
    Room × Except String Unit :=
  if room.hostId != callerPid then (room, Except.error "Only host can start game")
  else if room.status != RoomStatus.waiting then
    (room, Except.error "Room is not in waiting state")
  else
    let room1 := fillAI room now
    ({ room1 with status := RoomStatus.playing, gameId := some gameId }, Except.ok ())

/-! ## Sessions and name registration (`storage.ts`, `index.ts`) -/

/-- A player session (`interface PlayerSession`). -/
structure ServerSession where
  sessionId : String
  playerId : String
  playerName : String
  createdAt : Nat
  lastActivity : Nat
  currentRoomId : Option String
  currentGameId : Option String
deriving DecidableEq, Repr

/-- The name/session portion of the storage singleton: `playerNames` (the
set of lower-cased taken names) and `sessions`. -/
structure Registry where
  names : List String
  sessions : List ServerSession
deriving DecidableEq, Repr

/-- `storage.isNameTaken` (`storage.ts` line 42): membership of the
lower-cased name. -/
def isNameTaken (reg : Registry) (name : String) : Bool :=
  reg.names.contains (jsToLower name)

/-- The reserved-word list of the check-name handler (`index.ts` line 98). -/
def reservedNames : List String := ["admin", "test", "server", "system", "bot", "ai"]

/-- The check-name response payload. -/
structure CheckNameAnswer where
  available : Bool
  reason : Option String
deriving DecidableEq, Repr

/-- The check-name handler (`index.ts` lines 81-108).  `name == ""` models
the JS falsiness rejection of an empty name. -/
def checkName (reg : Registry) (name : String) : Except String CheckNameAnswer :=
  if name == "" then Except.error "Name is required"
  else
    let trimmedName := jsTrim name
    if trimmedName.length < 2 then
      Except.ok { available := false, reason := some "Minimum 2 characters" }
    else if 16 < trimmedName.length then
      Except.ok { available := false, reason := some "Maximum 16 characters" }
    else if reservedNames.contains (jsToLower trimmedName) then
      Except.ok { available := false, reason := some "Name is reserved" }
    else if isNameTaken reg trimmedName then
      Except.ok { available := false, reason := some "Name is already taken" }
    else Except.ok { available := true, reason := none }

/-- The join-server handler (`index.ts` lines 111-140); `sid`/`pid` stand
for the freshly generated UUIDs.  Note the handler validates only the
length and takenness of the trimmed name. -/
def joinServer (reg : Registry) (name sid pid : String) (now : Nat) :
    Registry × Except String (String × String) :=
  if name == "" then (reg, Except.error "Name is required")
  else
    let trimmedName := jsTrim name
    if trimmedName.length < 2 || 16 < trimmedName.length then
      (reg, Except.error "Invalid name length")
    else if isNameTaken reg trimmedName then
      (reg, Except.error "Name is already taken")
    else
      let sess : ServerSession :=
        { sessionId := sid, playerId := pid, playerName := trimmedName,
          createdAt := now, lastActivity := now,
          currentRoomId := none, currentGameId := none }
      ({ names := jsToLower trimmedName :: reg.names, sessions := sess :: reg.sessions },
        Except.ok (sid, pid))

/-! ## Rematch cancellation (`index.ts` lines 661-687) -/

/-- Rematch voting state (`interface RematchState`); votes are
`(playerId, vote, timestamp)` triples. -/
structure RematchState where
  gameId : String
  active : Bool
  votes : List (String × Bool × Nat)
  deadline : Nat
  requiredVotes : Nat
deriving DecidableEq, Repr

/-- The slice of the storage singleton touched by the cancel-rematch
handler; maps are association lists keyed by the entity's id. -/
structure ServerState where
  games : List Game
  rooms : List Room
  rematchStates : List RematchState
  sessions : List ServerSession
deriving DecidableEq, Repr

/-- The cancel-rematch handler (`index.ts` lines 661-687): after the
game-exists gate it unconditionally deletes any rematch state, broadcasts
`rematch_cancelled (player_declined)`, flips the owning room to `waiting`
with its AI members dropped, and clears the caller session's
`currentGameId`. -/
def cancelRematch (st : ServerState) (callerSessionId gameId : String) :
    ServerState × List Event × Except String Unit :=
  match st.games.find? (fun g => g.id == gameId) with
  | none => (st, [], Except.error "Game not found")
  | some game =>
    let rematch' := st.rematchStates.filter fun r => r.gameId != gameId
    let rooms' :=
      match st.rooms.find? (fun r => r.id == game.roomId) with
      | none => st.rooms
      | some room =>
        updateFirst st.rooms (fun r => r.id == room.id)
          (fun r => { r with
            status := RoomStatus.waiting
            players := r.players.filter fun p => !p.isAI })
    let sessions' :=
      updateFirst st.sessions (fun s => s.sessionId == callerSessionId)
        (fun s => { s with currentGameId := none })
    ({ st with rematchStates := rematch', rooms := rooms', sessions := sessions' },
      [Event.rematch_cancelled gameId "player_declined"],
      Except.ok ())

/-! ## Lemmas: deck engine -/

theorem mulberry32Next_eq_spec (s : Nat) : mulberry32Next s = specMulberryNext s := rfl

theorem createFullDeck_eq_spec : createFullDeck = specFullDeck := rfl

theorem listSwap_length (l : List α) (i j : Nat) : (listSwap l i j).length = l.length := by
  unfold listSwap
  cases hi : l.get? i <;> cases hj : l.get? j <;> simp

theorem fyIndices_succ (k : Nat) :
    fyIndices (k + 2) = (k + 1) :: fyIndices (k + 1) := by
  unfold fyIndices
  simp [List.range_succ]

theorem foldl_shuffleStep_eq_specFY (k : Nat) :
    ∀ (d : List Card) (s : Nat),
      ((fyIndices (k + 1)).foldl shuffleStep (d, s)).1 = specFisherYates d s k := by
  induction k with
  | zero =>
    intro d s
    simp [fyIndices, specFisherYates]
  | succ k ih =>
    intro d s
    rw [fyIndices_succ, List.foldl_cons]
    show ((fyIndices (k + 1)).foldl shuffleStep (shuffleStep (d, s) (k + 1))).1 = _
    rw [show shuffleStep (d, s) (k + 1) =
        (listSwap d (k + 1) ((mulberry32Next s).2 * (k + 2) / U32MOD),
          (mulberry32Next s).1) from rfl]
    rw [ih]
    rfl

theorem foldl_shuffleStep_length :
    ∀ (is : List Nat) (d : List Card) (s : Nat),
      ((is.foldl shuffleStep (d, s)).1).length = d.length := by
  intro is
  induction is with
  | nil => intro d s; rfl
  | cons i rest ih =>
    intro d s
    rw [List.foldl_cons]
    show ((rest.foldl shuffleStep
      (listSwap d i ((mulberry32Next s).2 * (i + 1) / U32MOD),
        (mulberry32Next s).1)).1).length = _
    rw [ih, listSwap_length]

/-- C5: `createShuffledDeck` is a deterministic function of the seed and
realises exactly the specified recipe: two concatenated standard 52-card
decks (104 cards) shuffled by Fisher-Yates (`i` from 103 down to 1,
`j = floor(next() * (i+1))`) over the mulberry32 generator; in particular
two calls with the same seed agree at every index. -/
theorem c5_deck_follows_spec (seed : Nat) :
    createShuffledDeck seed = specShuffle seed ∧
    (createShuffledDeck seed).length = 104 ∧
    createFullDeck = specFullDeck ∧
    (∀ k : Nat, (createShuffledDeck seed).get? k = (specShuffle seed).get? k) := by
  have hlen : createFullDeck.length = 104 := rfl
  have heq : createShuffledDeck seed = specShuffle seed := by
    unfold createShuffledDeck specShuffle
    rw [createFullDeck_eq_spec]
    have h104 : specFullDeck.length = 104 := rfl
    rw [h104]
    exact foldl_shuffleStep_eq_specFY 103 specFullDeck seed
  refine ⟨heq, ?_, createFullDeck_eq_spec, fun k => by rw [heq]⟩
  unfold createShuffledDeck
  rw [foldl_shuffleStep_length, hlen]

/-! ## Lemmas: sequence detector -/

/-- A non-corner test cell carrying an arbitrary layout card. -/
def testCell (r c : Nat) (chip : Option Chip) : BoardCell :=
  { card := BoardCard.c { suit := Suit.spades, rank := Rank.n2 }, chip := chip,
    row := r, col := c }

/-- An unmarked green chip. -/
def greenChip : Chip := { color := TeamColor.green, partOfSequence := false }

/-- A 5×6 board on which one move has just completed two green 5-lines at
once: a horizontal line through `(2,1)…(2,5)` and a vertical line through
`(0,3)…(4,3)`, crossing at `(2,3)`. -/
def crossBoard : Board :=
  (List.range 5).map fun r =>
    (List.range 6).map fun c =>
      testCell r c (if (r == 2 && 1 ≤ c && c ≤ 5) || c == 3 then some greenChip else none)

/-- A 3×10 board holding a newly completed green 10-in-a-row on row 1. -/
def rowBoard : Board :=
  (List.range 3).map fun r =>
    (List.range 10).map fun c =>
      testCell r c (if r == 1 then some greenChip else none)

theorem findNewSequences_of_counted (board : Board) (team : TeamColor)
    (existing : List Seq)
    (h : countSequencesFromBoard board team ≤ countSequences existing team) :
    findNewSequences board team existing = [] := by
  unfold findNewSequences
  unfold countSequencesFromBoard at h
  have h' : ¬ (0 : Int) <
      (((findAllLines board team).foldl (fun s l => s + l.sequenceCount) 0 : Nat) : Int) -
        ((countSequences existing team : Nat) : Int) := by
    omega
  simp only [h', if_false]

/-- C8 counterexample: on `crossBoard` (a single move completing two lines
at once) the first detector batch covers only the vertical line, and a
second call on the unchanged board with the updated sequence list returns
the horizontal line rather than the empty list. -/
theorem c8_counterexample :
    (applyNewSequences crossBoard []
        (findNewSequences crossBoard TeamColor.green [])).2 =
      (findNewSequences crossBoard TeamColor.green []) ∧
    findNewSequences
        (applyNewSequences crossBoard []
          (findNewSequences crossBoard TeamColor.green [])).1
        TeamColor.green
        (applyNewSequences crossBoard []
          (findNewSequences crossBoard TeamColor.green [])).2 ≠ [] := by
  constructor
  · rfl
  · decide

/-- C8 amended: a second detector call returns the empty list whenever the
recorded count has caught up with the board's total line count (which a
single completed line always achieves, but a move completing two lines at
once does not); a newly completed 10-in-a-row with no previously recorded
sequence contributes exactly 2 records and a repeat call never inflates the
count beyond 2. -/
theorem c8_detector_amended :
    (∀ (board : Board) (team : TeamColor) (existing : List Seq),
        countSequencesFromBoard board team ≤ countSequences existing team →
        findNewSequences board team existing = []) ∧
    ((findNewSequences rowBoard TeamColor.green []).length = 2 ∧
      (findNewSequences rowBoard TeamColor.green []).all
        (fun s => s.teamColor == TeamColor.green) = true ∧
      findNewSequences
          (applyNewSequences rowBoard []
            (findNewSequences rowBoard TeamColor.green [])).1
          TeamColor.green
          (applyNewSequences rowBoard []
            (findNewSequences rowBoard TeamColor.green [])).2 = [] ∧
      countSequences
          (applyNewSequences rowBoard []
            (findNewSequences rowBoard TeamColor.green [])).2
          TeamColor.green = 2) := by
  refine ⟨findNewSequences_of_counted, ?_, ?_, ?_, ?_⟩ <;> decide

/-- Witness for `c8_detector_amended`: the hypothesis of its first conjunct
holds on the empty board, where the detector indeed returns nothing. -/
theorem c8_detector_amended_witness :
    countSequencesFromBoard [] TeamColor.green ≤ countSequences [] TeamColor.green ∧
    findNewSequences [] TeamColor.green [] = [] :=
  ⟨by decide, c8_detector_amended.1 [] TeamColor.green [] (by decide)⟩

/-! ## List-level helper lemmas -/

theorem listGetInt_ofNat (l : List α) (n : Nat) : listGetInt l (n : Int) = l.get? n := rfl

theorem get?_eq_some_lt (l : List α) (n : Nat) (a : α) (h : l.get? n = some a) :
    n < l.length := by
  induction l generalizing n with
  | nil => simp [List.get?] at h
  | cons b t ih =>
    cases n with
    | zero => simp
    | succ m =>
      simp only [List.get?] at h
      have := ih m h
      simp
      omega

theorem listGetInt_eq_none_iff (l : List α) (i : Int) :
    listGetInt l i = none ↔ i < 0 ∨ (l.length : Int) ≤ i := by
  cases i with
  | ofNat n =>
    simp only [listGetInt, Int.ofNat_eq_coe]
    rw [List.get?_eq_none]
    constructor
    · intro h; right; exact_mod_cast h
    · intro h
      rcases h with h | h
      · omega
      · exact_mod_cast h
  | negSucc n =>
    simp [listGetInt, Int.negSucc_lt_zero n]

theorem listGetInt_eq_some_of_bounds (l : List α) (i : Int)
    (h0 : 0 ≤ i) (h1 : i < (l.length : Int)) : ∃ a, listGetInt l i = some a := by
  cases hg : listGetInt l i with
  | none =>
    have := (listGetInt_eq_none_iff l i).mp hg
    omega
  | some a => exact ⟨a, rfl⟩

theorem listSetAt_get?_self (l : List α) (n : Nat) (f : α → α) :
    (listSetAt l n f).get? n = (l.get? n).map f := by
  induction l generalizing n with
  | nil => cases n <;> rfl
  | cons a t ih =>
    cases n with
    | zero => rfl
    | succ m => simpa [listSetAt] using ih m

theorem boardGet_boardModify_self (b : Board) (r c : Int) (f : BoardCell → BoardCell)
    (cell : BoardCell) (h : boardGet b r c = some cell) :
    boardGet (boardModify b r c f) r c = some (f cell) := by
  cases r with
  | negSucc n => simp [boardGet, listGetInt] at h
  | ofNat rn =>
    cases c with
    | negSucc m =>
      unfold boardGet at h
      cases hrow : listGetInt b (Int.ofNat rn) with
      | none => rw [hrow] at h; simp at h
      | some row => rw [hrow] at h; simp [listGetInt] at h
    | ofNat cn =>
      unfold boardGet at h
      unfold boardGet boardModify
      rw [show listGetInt b (Int.ofNat rn) = b.get? rn from rfl] at h
      cases hrow : b.get? rn with
      | none => rw [hrow] at h; simp at h
      | some row =>
        rw [hrow] at h
        simp only [Option.some_bind] at h
        rw [show listGetInt (listSetAt b rn fun r0 => listSetAt r0 cn f) (Int.ofNat rn) =
          (listSetAt b rn fun r0 => listSetAt r0 cn f).get? rn from rfl]
        rw [listSetAt_get?_self, hrow]
        simp only [Option.map_some', Option.some_bind]
        rw [show listGetInt (listSetAt row cn f) (Int.ofNat cn) =
          (listSetAt row cn f).get? cn from rfl]
        rw [listSetAt_get?_self]
        rw [show listGetInt row (Int.ofNat cn) = row.get? cn from rfl] at h
        rw [h]
        rfl

theorem updateFirst_find? (l : List α) (p : α → Bool) (f : α → α)
    (hf : ∀ a, p (f a) = p a) :
    (updateFirst l p f).find? p = (l.find? p).map f := by
  induction l with
  | nil => rfl
  | cons a t ih =>
    by_cases h : p a = true
    · simp [updateFirst, h, List.find?_cons, hf a]
    · have h' : p a = false := by revert h; cases p a <;> simp
      simp [updateFirst, h', List.find?_cons, ih]

theorem updateFirst_eq_map_of_nodup (l : List α) (key : α → String) (k : String)
    (f : α → α) : (l.map key).Nodup →
    updateFirst l (fun a => key a == k) f =
      l.map fun a => if key a == k then f a else a := by
  induction l with
  | nil => intro _; rfl
  | cons a t ih =>
    intro hnd
    simp only [List.map_cons, List.nodup_cons] at hnd
    by_cases h : key a = k
    · have hfalse : ∀ b ∈ t, (key b == k) = false := by
        intro b hb
        have hbk : key b ≠ k := fun hbk => hnd.1 (h ▸ hbk ▸ List.mem_map_of_mem key hb)
        simp [hbk]
      have htail : (t.map fun b => if key b == k then f b else b) = t := by
        conv_rhs => rw [← List.map_id t]
        exact List.map_congr_left fun b hb => by simp [hfalse b hb]
      have hT : (key a == k) = true := by simp [h]
      simp only [updateFirst, hT, if_true, List.map_cons, htail]
    · have hne : (key a == k) = false := by simp [h]
      simp only [updateFirst, hne, List.map_cons, if_false, Bool.false_eq_true]
      rw [ih hnd.2]

theorem find?_findIndexJS (l : List α) (p : α → Bool) (b : α)
    (h : l.find? p = some b) :
    ∃ i : Nat, findIndexJS l p = (i : Int) ∧ l.get? i = some b ∧ i < l.length := by
  induction l with
  | nil => simp at h
  | cons a t ih =>
    by_cases ha : p a = true
    · rw [List.find?_cons_of_pos _ ha] at h
      injection h with h
      subst h
      exact ⟨0, by simp [findIndexJS, ha], rfl, by simp⟩
    · have ha' : p a = false := by revert ha; cases p a <;> simp
      rw [List.find?_cons_of_neg _ (by simp [ha'])] at h
      obtain ⟨i, hi, hg, hlt⟩ := ih h
      refine ⟨i + 1, ?_, by simpa using hg, by simp; omega⟩
      simp only [findIndexJS, ha', Bool.false_eq_true, if_false, hi]
      have : ¬ ((i : Int) < 0) := by omega
      simp [this]

theorem findIndexJS_key_congr (key : α → String) (k : String) :
    ∀ (l₁ l₂ : List α), l₁.map key = l₂.map key →
      findIndexJS l₁ (fun a => key a == k) = findIndexJS l₂ (fun a => key a == k) := by
  intro l₁
  induction l₁ with
  | nil =>
    intro l₂ h
    cases l₂ with
    | nil => rfl
    | cons b t => simp at h
  | cons a t ih =>
    intro l₂ h
    cases l₂ with
    | nil => simp at h
    | cons b u =>
      simp only [List.map_cons, List.cons.injEq] at h
      simp only [findIndexJS, h.1, ih u h.2]

theorem get?_find?_nodup (l : List α) (key : α → String) (k : String) (b : α) :
    (l.map key).Nodup → l.find? (fun a => key a == k) = some b →
    ∀ (i : Nat) (q : α), l.get? i = some q → key q = k → q = b := by
  induction l with
  | nil => intro _ hf; simp at hf
  | cons a t ih =>
    intro hnd hf i q hg hk
    simp only [List.map_cons, List.nodup_cons] at hnd
    cases i with
    | zero =>
      simp only [List.get?] at hg
      injection hg with hg
      subst hg
      rw [List.find?_cons_of_pos _ (by simp [hk])] at hf
      simpa using hf
    | succ m =>
      simp only [List.get?] at hg
      have hmem : q ∈ t := List.get?_mem hg
      have hka : key a ≠ k := fun hak => hnd.1 (hak ▸ hk ▸ List.mem_map_of_mem key hmem)
      rw [List.find?_cons_of_neg _ (by simp [hka])] at hf
      exact ih hnd.2 hf m q hg hk

/-! ## Lemmas: turn execution -/

theorem executeTurnCore_result (game : Game) (pid : String) (ci row col : Int)
    (player : GamePlayer) (card : Card) (now : Nat) :
    (executeTurnCore game pid ci row col player card now).2.2 = TurnResult.ok := rfl

theorem executeTurn_ok_inv (game : Game) (pid : String) (ci row col : Int) (now : Nat)
    (h : (executeTurn game pid ci row col now).2.2 = TurnResult.ok) :
    ∃ player card cell,
      game.players.find? (fun p => p.playerId == pid) = some player ∧
      listGetInt player.hand ci = some card ∧
      boardGet game.board row col = some cell ∧
      validateMove card cell player.teamColor = none ∧
      executeTurn game pid ci row col now =
        executeTurnCore game pid ci row col player card now := by
  unfold executeTurn at h ⊢
  cases hp : game.players.find? (fun p => p.playerId == pid) with
  | none => simp only [hp] at h; simp at h
  | some player =>
    simp only [hp] at h
    cases hc : listGetInt player.hand ci with
    | none => simp only [hc] at h; simp at h
    | some card =>
      simp only [hc] at h
      cases hcell : boardGet game.board row col with
      | none => simp only [hcell] at h; simp at h
      | some cell =>
        simp only [hcell] at h
        cases hv : validateMove card cell player.teamColor with
        | some e => simp only [hv] at h; simp at h
        | none =>
          refine ⟨player, card, cell, rfl, hc, rfl, hv, ?_⟩
          simp only [hc, hcell, hv]

theorem executeTurn_err_shape (game : Game) (pid : String) (ci row col : Int) (now : Nat)
    (e : String) (h : (executeTurn game pid ci row col now).2.2 = TurnResult.err e) :
    executeTurn game pid ci row col now = (game, [], TurnResult.err e) := by
  unfold executeTurn at h ⊢
  cases hp : game.players.find? (fun p => p.playerId == pid) with
  | none => simp only [hp] at h; simp at h; subst h; rfl
  | some player =>
    simp only [hp] at h
    cases hc : listGetInt player.hand ci with
    | none => simp only [hc] at h; simp at h; subst h; simp only [hc]
    | some card =>
      simp only [hc] at h
      cases hcell : boardGet game.board row col with
      | none => simp only [hcell] at h; simp at h; subst h; simp only [hc]
      | some cell =>
        simp only [hcell] at h
        cases hv : validateMove card cell player.teamColor with
        | some e' =>
          simp only [hv] at h
          simp at h
          subst h
          simp only [hc, hcell, hv]
        | none =>
          simp only [hv] at h
          rw [executeTurnCore_result] at h
          simp at h

/-- Modelled from the spec (claim C1 wording): compatibility of a played
card with a target cell — a two-eyed Jack needs a non-corner chip-free
cell; a one-eyed Jack needs a cell holding another team's chip that is not
`partOfSequence`; an ordinary card needs a non-corner chip-free cell whose
layout card equals the played card. -/
def moveCompatibleSpec (card : Card) (cell : BoardCell) (team : TeamColor) : Prop :=
  if isTwoEyedJack card then
    cell.card ≠ BoardCard.corner ∧ cell.chip = none
  else if isOneEyedJack card then
    ∃ chip, cell.chip = some chip ∧ chip.color ≠ team ∧ chip.partOfSequence = false
  else
    cell.card = BoardCard.c card ∧ cell.chip = none

theorem validateMove_none_iff (card : Card) (cell : BoardCell) (team : TeamColor) :
    validateMove card cell team = none ↔ moveCompatibleSpec card cell team := by
  obtain ⟨ccard, cchip, crow, ccol⟩ := cell
  unfold validateMove moveCompatibleSpec
  cases h2 : isTwoEyedJack card with
  | true =>
    cases cchip with
    | none => cases ccard <;> simp
    | some chip => cases ccard <;> simp
  | false =>
    cases h1 : isOneEyedJack card with
    | true =>
      cases cchip with
      | none => simp
      | some chip =>
        simp only [Bool.false_eq_true, if_false, if_true]
        constructor
        · intro h
          by_cases hcol : chip.color = team
          · simp [hcol] at h
          · by_cases hpos : chip.partOfSequence = true
            · simp [hpos] at h
            · exact ⟨chip, rfl, hcol, by simpa using hpos⟩
        · rintro ⟨chip', heq, hcol, hpos⟩
          have heq' : chip = chip' := by injection heq
          subst heq'
          have hc : (chip.color == team) = false := by simp [hcol]
          simp [hc, hpos]
    | false =>
      cases ccard with
      | corner => simp
      | c cellCard =>
        cases cchip with
        | some chip => simp
        | none =>
          simp only [Bool.false_eq_true, if_false, Option.isSome_none]
          obtain ⟨cs, cr⟩ := cellCard
          obtain ⟨ps, pr⟩ := card
          simp only [BoardCard.c.injEq, Card.mk.injEq]
          constructor
          · intro h
            by_cases hr : cr = pr <;> by_cases hs : cs = ps <;> simp_all
          · rintro ⟨⟨hs, hr⟩, -⟩
            simp [hs, hr]

/-- C1: on a resolvable turn request (player found, card index valid, cell
in range) `executeTurn` accepts exactly the compatible card/cell pairs, and
an accepted move first writes the claimed chip — `none` for a one-eyed
Jack, the caller's color with `partOfSequence := false` otherwise — into
the target cell, all further board change coming from sequence marking of
that written board. -/
theorem c1_move_validation (game : Game) (pid : String) (ci row col : Int) (now : Nat)
    (player : GamePlayer) (card : Card) (cell : BoardCell)
    (hp : game.players.find? (fun p => p.playerId == pid) = some player)
    (hc : listGetInt player.hand ci = some card)
    (hcell : boardGet game.board row col = some cell) :
    ((executeTurn game pid ci row col now).2.2 = TurnResult.ok ↔
      moveCompatibleSpec card cell player.teamColor) ∧
    ((executeTurn game pid ci row col now).2.2 = TurnResult.ok →
      boardGet
          (boardModify game.board row col
            (fun c0 => { c0 with chip := moveChip card player.teamColor }))
          row col =
        some { cell with chip :=
          (if isOneEyedJack card then none
           else some { color := player.teamColor, partOfSequence := false }) } ∧
      (executeTurn game pid ci row col now).1.board =
        (applyNewSequences
          (boardModify game.board row col
            (fun c0 => { c0 with chip := moveChip card player.teamColor }))
          game.sequences
          (findNewSequences
            (boardModify game.board row col
              (fun c0 => { c0 with chip := moveChip card player.teamColor }))
            player.teamColor game.sequences)).1) := by
  constructor
  · constructor
    · intro h
      obtain ⟨player', card', cell', hp', hc', hcell', hv', -⟩ :=
        executeTurn_ok_inv game pid ci row col now h
      rw [hp'] at hp; injection hp with hp; subst hp
      rw [hc'] at hc; injection hc with hc; subst hc
      rw [hcell'] at hcell; injection hcell with hcell; subst hcell
      exact (validateMove_none_iff _ _ _).mp hv'
    · intro h
      have hv := (validateMove_none_iff card cell player.teamColor).mpr h
      unfold executeTurn
      simp only [hp, hc, hcell, hv]
      exact executeTurnCore_result game pid ci row col player card now
  · intro h
    obtain ⟨player', card', cell', hp', hc', hcell', hv', heq⟩ :=
      executeTurn_ok_inv game pid ci row col now h
    rw [hp'] at hp; injection hp with hp; subst hp
    rw [hc'] at hc; injection hc with hc; subst hc
    rw [hcell'] at hcell; injection hcell with hcell; subst hcell
    constructor
    · have hbm := boardGet_boardModify_self game.board row col
        (fun c0 => { c0 with chip := moveChip card' player'.teamColor }) cell' hcell'
      rw [hbm]
      unfold moveChip
      by_cases h1 : isOneEyedJack card' = true
      · simp [h1]
      · have h1f : isOneEyedJack card' = false := by
          revert h1; cases isOneEyedJack card' <;> simp
        simp [h1f]
    · rw [heq]
      rfl

theorem listGetInt_mem (l : List α) (i : Int) (a : α) (h : listGetInt l i = some a) :
    a ∈ l := by
  cases i with
  | ofNat n => exact List.get?_mem h
  | negSucc n => simp [listGetInt] at h

/-- C10: `executeTurn` is total over arbitrary integer indices: a card
index outside the caller's hand yields the `Invalid card index` error, and
— for an in-range card index — a cell outside the 10×10 board yields the
`Invalid cell` error; in both cases the game, the events and everything
else are exactly the untouched input. -/
theorem c10_execute_turn_total (game : Game) (pid : String) (ci row col : Int)
    (now : Nat) (player : GamePlayer)
    (hp : game.players.find? (fun p => p.playerId == pid) = some player)
    (hrows : game.board.length = 10)
    (hcols : ∀ r ∈ game.board, r.length = 10) :
    ((ci < 0 ∨ (player.hand.length : Int) ≤ ci) →
      executeTurn game pid ci row col now =
        (game, [], TurnResult.err "Invalid card index")) ∧
    ((0 ≤ ci ∧ ci < (player.hand.length : Int)) →
      (row < 0 ∨ 10 ≤ row ∨ col < 0 ∨ 10 ≤ col) →
      executeTurn game pid ci row col now =
        (game, [], TurnResult.err "Invalid cell")) := by
  constructor
  · intro hout
    have hc : listGetInt player.hand ci = none := (listGetInt_eq_none_iff _ _).mpr hout
    unfold executeTurn
    simp only [hp, hc]
  · intro hin hout
    obtain ⟨card, hc⟩ := listGetInt_eq_some_of_bounds player.hand ci hin.1 hin.2
    have hbnone : boardGet game.board row col = none := by
      unfold boardGet
      rcases hout with hrow | hrow | hcol | hcol
      · rw [(listGetInt_eq_none_iff _ _).mpr (Or.inl hrow)]
        rfl
      · rw [(listGetInt_eq_none_iff _ _).mpr (Or.inr (by rw [hrows]; exact hrow))]
        rfl
      · cases hg : listGetInt game.board row with
        | none => rfl
        | some r =>
          simp only [Option.some_bind]
          exact (listGetInt_eq_none_iff _ _).mpr (Or.inl hcol)
      · cases hg : listGetInt game.board row with
        | none => rfl
        | some r =>
          simp only [Option.some_bind]
          refine (listGetInt_eq_none_iff _ _).mpr (Or.inr ?_)
          rw [hcols r (listGetInt_mem game.board row r hg)]
          exact hcol
    unfold executeTurn
    simp only [hp, hc, hbnone]

/-- C2: whenever the `turn` route rejects a request — game not found, game
not active, not the caller's turn, caller not in the game, or any
`executeTurn` rejection — the stored game is returned unchanged and no
events are emitted. -/
theorem c2_rejection_no_mutation (game? : Option Game) (pid : String)
    (ci row col : Int) (now : Nat) (e : String)
    (h : (turnHandler game? pid ci row col now).2.2 = TurnResult.err e) :
    (turnHandler game? pid ci row col now).1 = game? ∧
    (turnHandler game? pid ci row col now).2.1 = [] := by
  cases game? with
  | none => exact ⟨rfl, rfl⟩
  | some game =>
    unfold turnHandler at h ⊢
    by_cases h1 : (game.status != GStatus.active) = true
    · simp [h1]
    · simp only [h1, if_false, Bool.false_eq_true] at h ⊢
      by_cases h2 : (game.currentTurnPlayerId != pid) = true
      · simp [h2]
      · simp only [h2, if_false, Bool.false_eq_true] at h ⊢
        by_cases h3 : (game.players.find? (fun p => p.playerId == pid)).isNone = true
        · simp [h3]
        · simp only [h3, if_false, Bool.false_eq_true] at h ⊢
          have herr := executeTurn_err_shape game pid ci row col now e h
          rw [herr]
          exact ⟨rfl, rfl⟩

/-- Witness game for the turn theorems: Alice (green) about to play the
2♠ in her hand onto the single matching empty cell of a 1×1 board. -/
def wAlice : GamePlayer :=
  { playerId := "alice", playerName := "Alice", teamColor := TeamColor.green,
    isAI := false, hand := [{ suit := Suit.spades, rank := Rank.n2 }] }

/-- Witness game second seat. -/
def wBob : GamePlayer :=
  { playerId := "bob", playerName := "Bob", teamColor := TeamColor.blue,
    isAI := false, hand := [{ suit := Suit.hearts, rank := Rank.n3 }] }

/-- Witness game: active, Alice to move, empty deck. -/
def wGame : Game :=
  { id := "g1", roomId := "r1", deckSeed := 7, status := GStatus.active,
    players := [wAlice, wBob], board := [[testCell 0 0 none]], sequences := [],
    currentTurnPlayerId := "alice", deckCursor := 0, shuffledDeck := [],
    turnHistory := [], winnerId := none, createdAt := 0, finishedAt := none,
    lastActivityAt := 0 }

/-- Witness for `c2_rejection_no_mutation`: a rejected turn on a concrete
stored game (not the caller's turn) leaves the game and event stream
untouched. -/
theorem c2_rejection_no_mutation_witness :
    ((turnHandler (some wGame) "bob" 0 0 0 5).2.2 = TurnResult.err "Not your turn") ∧
    (turnHandler (some wGame) "bob" 0 0 0 5).1 = some wGame ∧
    (turnHandler (some wGame) "bob" 0 0 0 5).2.1 = [] :=
  ⟨rfl, c2_rejection_no_mutation (some wGame) "bob" 0 0 0 5 "Not your turn" rfl⟩

/-- Witness for `c1_move_validation` at the concrete game `wGame`. -/
theorem c1_move_validation_witness :
    (wGame.players.find? (fun p => p.playerId == "alice") = some wAlice ∧
      listGetInt wAlice.hand 0 = some { suit := Suit.spades, rank := Rank.n2 } ∧
      boardGet wGame.board 0 0 = some (testCell 0 0 none)) ∧
    ((executeTurn wGame "alice" 0 0 0 5).2.2 = TurnResult.ok ↔
      moveCompatibleSpec { suit := Suit.spades, rank := Rank.n2 } (testCell 0 0 none)
        wAlice.teamColor) :=
  ⟨⟨rfl, rfl, rfl⟩,
    (c1_move_validation wGame "alice" 0 0 0 5 wAlice
      { suit := Suit.spades, rank := Rank.n2 } (testCell 0 0 none) rfl rfl rfl).1⟩

/-- A 10×10 all-empty board of non-corner cells. -/
def board10 : Board :=
  (List.range 10).map fun r => (List.range 10).map fun c => testCell r c none

/-- The witness game placed on the full 10×10 board. -/
def w10Game : Game := { wGame with board := board10 }

/-- Witness for `c10_execute_turn_total`: on a concrete 10×10 game, a
negative card index is rejected without touching the state, as is an
out-of-board cell for a valid card index. -/
theorem c10_execute_turn_total_witness :
    (w10Game.players.find? (fun p => p.playerId == "alice") = some wAlice ∧
      w10Game.board.length = 10) ∧
    executeTurn w10Game "alice" (-1) 0 0 5 =
      (w10Game, [], TurnResult.err "Invalid card index") ∧
    executeTurn w10Game "alice" 0 11 0 5 =
      (w10Game, [], TurnResult.err "Invalid cell") :=
  ⟨⟨rfl, rfl⟩,
    (c10_execute_turn_total w10Game "alice" (-1) 0 0 5 wAlice rfl rfl
      (by decide)).1 (Or.inl (by decide)),
    (c10_execute_turn_total w10Game "alice" 0 11 0 5 wAlice rfl rfl
      (by decide)).2 ⟨by decide, by decide⟩ (Or.inr (Or.inl (by decide)))⟩

theorem updateFirst_map_key (l : List α) (p : α → Bool) (f : α → α) (key : α → β)
    (hf : ∀ a, key (f a) = key a) :
    (updateFirst l p f).map key = l.map key := by
  induction l with
  | nil => rfl
  | cons a t ih =>
    by_cases h : p a = true
    · simp [updateFirst, h, hf a]
    · have h' : p a = false := by revert h; cases p a <;> simp
      simp [updateFirst, h', ih]

theorem get?_eq_some_of_lt (l : List α) (n : Nat) (h : n < l.length) :
    ∃ a, l.get? n = some a := by
  cases hg : l.get? n with
  | none => exact absurd (List.get?_eq_none.mp hg) (by omega)
  | some a => exact ⟨a, rfl⟩

theorem executeTurnCore_status (g : Game) (pid : String) (ci row col : Int)
    (player : GamePlayer) (card : Card) (now : Nat) :
    (executeTurnCore g pid ci row col player card now).1.status =
      (if checkWinCondition
          (executeTurnCore g pid ci row col player card now).1.sequences
          player.teamColor = true
       then GStatus.finished else g.status) := rfl

theorem executeTurnCore_winner (g : Game) (pid : String) (ci row col : Int)
    (player : GamePlayer) (card : Card) (now : Nat) :
    (executeTurnCore g pid ci row col player card now).1.winnerId =
      (if checkWinCondition
          (executeTurnCore g pid ci row col player card now).1.sequences
          player.teamColor = true
       then some pid else g.winnerId) := rfl

theorem executeTurnCore_finishedAt (g : Game) (pid : String) (ci row col : Int)
    (player : GamePlayer) (card : Card) (now : Nat) :
    (executeTurnCore g pid ci row col player card now).1.finishedAt =
      (if checkWinCondition
          (executeTurnCore g pid ci row col player card now).1.sequences
          player.teamColor = true
       then some now else g.finishedAt) := rfl

theorem executeTurnCore_currentTurn (g : Game) (pid : String) (ci row col : Int)
    (player : GamePlayer) (card : Card) (now : Nat) :
    (executeTurnCore g pid ci row col player card now).1.currentTurnPlayerId =
      (if checkWinCondition
          (executeTurnCore g pid ci row col player card now).1.sequences
          player.teamColor = true
       then g.currentTurnPlayerId
       else rotateTurn (executeTurnCore g pid ci row col player card now).1.players
         g.currentTurnPlayerId) := rfl

theorem executeTurnCore_players (g : Game) (pid : String) (ci row col : Int)
    (player : GamePlayer) (card : Card) (now : Nat) :
    (executeTurnCore g pid ci row col player card now).1.players =
      updateFirst g.players (fun p => p.playerId == pid)
        (fun p => { p with
          hand := nextHand player ci g.shuffledDeck g.deckCursor }) := rfl

theorem executeTurnCore_deckCursor (g : Game) (pid : String) (ci row col : Int)
    (player : GamePlayer) (card : Card) (now : Nat) :
    (executeTurnCore g pid ci row col player card now).1.deckCursor =
      nextCursor g.shuffledDeck g.deckCursor := rfl

theorem executeTurnCore_shuffledDeck (g : Game) (pid : String) (ci row col : Int)
    (player : GamePlayer) (card : Card) (now : Nat) :
    (executeTurnCore g pid ci row col player card now).1.shuffledDeck =
      g.shuffledDeck := rfl

theorem rotateTurn_spec (players players' : List GamePlayer) (pid : String)
    (player : GamePlayer)
    (hids : players'.map (fun p => p.playerId) = players.map (fun p => p.playerId))
    (hfind : players.find? (fun p => p.playerId == pid) = some player) :
    ∃ (i : Nat) (q : GamePlayer),
      findIndexJS players (fun p => p.playerId == pid) = (i : Int) ∧
      players.get? ((i + 1) % players.length) = some q ∧
      rotateTurn players' pid = q.playerId := by
  obtain ⟨i, hi, hg, hlt⟩ := find?_findIndexJS players _ player hfind
  have hlen : players'.length = players.length := by
    have := congrArg List.length hids
    simpa using this
  have hn : 0 < players.length := lt_of_le_of_lt (Nat.zero_le i) hlt
  have hjlt : (i + 1) % players.length < players.length := Nat.mod_lt _ hn
  obtain ⟨q, hq⟩ := get?_eq_some_of_lt players ((i + 1) % players.length) hjlt
  refine ⟨i, q, hi, hq, ?_⟩
  have hfi : findIndexJS players' (fun p => p.playerId == pid) = (i : Int) := by
    rw [findIndexJS_key_congr (fun p => p.playerId) pid players' players hids]
    exact hi
  have hmod : (((i : Int) + 1) % ((players.length : Nat) : Int)).toNat =
      (i + 1) % players.length := by
    rw [show ((i : Int) + 1) = (((i + 1 : Nat) : Nat) : Int) by push_cast; ring]
    rw [← Int.ofNat_emod]
    exact Int.toNat_ofNat _
  have hpid : (players'.get? ((i + 1) % players.length)).map (fun p => p.playerId) =
      some q.playerId := by
    have h1 : (players'.map (fun p => p.playerId)).get? ((i + 1) % players.length) =
        (players.map (fun p => p.playerId)).get? ((i + 1) % players.length) := by
      rw [hids]
    rw [List.get?_map, List.get?_map, hq] at h1
    simpa using h1
  simp only [rotateTurn, hfi, hlen, hmod]
  cases hg' : players'.get? ((i + 1) % players.length) with
  | none => rw [hg'] at hpid; simp at hpid
  | some q' =>
    rw [hg'] at hpid
    simp only [Option.map_some', Option.some.injEq] at hpid
    simp [hpid]

/-- C3: for every successfully executed turn on an active game by the
current player — if the caller's team has at least 2 recorded sequences
after detection, the game finishes with `winnerId` set to the caller,
`finishedAt` stamped, and the turn not advanced; otherwise the game stays
active, winner and finish time are untouched, and the turn passes to the
next seat round-robin. -/
theorem c3_win_and_rotation (game : Game) (pid : String) (ci row col : Int)
    (now : Nat) (player : GamePlayer)
    (hst : game.status = GStatus.active)
    (hp : game.players.find? (fun p => p.playerId == pid) = some player)
    (hcur : game.currentTurnPlayerId = pid)
    (hok : (executeTurn game pid ci row col now).2.2 = TurnResult.ok) :
    ((2 ≤ countSequences (executeTurn game pid ci row col now).1.sequences
          player.teamColor) →
      (executeTurn game pid ci row col now).1.status = GStatus.finished ∧
      (executeTurn game pid ci row col now).1.winnerId = some pid ∧
      (executeTurn game pid ci row col now).1.finishedAt = some now ∧
      (executeTurn game pid ci row col now).1.currentTurnPlayerId =
        game.currentTurnPlayerId) ∧
    ((countSequences (executeTurn game pid ci row col now).1.sequences
          player.teamColor < 2) →
      (executeTurn game pid ci row col now).1.status = GStatus.active ∧
      (executeTurn game pid ci row col now).1.winnerId = game.winnerId ∧
      (executeTurn game pid ci row col now).1.finishedAt = game.finishedAt ∧
      ∃ (i : Nat) (q : GamePlayer),
        findIndexJS game.players (fun p => p.playerId == pid) = (i : Int) ∧
        game.players.get? ((i + 1) % game.players.length) = some q ∧
        (executeTurn game pid ci row col now).1.currentTurnPlayerId = q.playerId) := by
  obtain ⟨player', card', cell', hp', hc', hcell', hv', heq⟩ :=
    executeTurn_ok_inv game pid ci row col now hok
  have hpe : player = player' := by
    rw [hp'] at hp
    exact (Option.some.inj hp).symm
  subst hpe
  rw [heq]
  cases hfin : checkWinCondition
      (executeTurnCore game pid ci row col player card' now).1.sequences
      player.teamColor with
  | true =>
    constructor
    · intro _
      refine ⟨?_, ?_, ?_, ?_⟩
      · rw [executeTurnCore_status, hfin, if_pos rfl]
      · rw [executeTurnCore_winner, hfin, if_pos rfl]
      · rw [executeTurnCore_finishedAt, hfin, if_pos rfl]
      · rw [executeTurnCore_currentTurn, hfin, if_pos rfl]
    · intro hlt
      have h2 : 2 ≤ countSequences
          (executeTurnCore game pid ci row col player card' now).1.sequences
          player.teamColor := of_decide_eq_true hfin
      omega
  | false =>
    constructor
    · intro h2
      have hlt : ¬ 2 ≤ countSequences
          (executeTurnCore game pid ci row col player card' now).1.sequences
          player.teamColor := of_decide_eq_false hfin
      omega
    · intro _
      refine ⟨?_, ?_, ?_, ?_⟩
      · rw [executeTurnCore_status, hfin, if_neg (by simp)]
        exact hst
      · rw [executeTurnCore_winner, hfin, if_neg (by simp)]
      · rw [executeTurnCore_finishedAt, hfin, if_neg (by simp)]
      · have hids : ((executeTurnCore game pid ci row col player card' now).1.players).map
            (fun p => p.playerId) = game.players.map (fun p => p.playerId) := by
          rw [executeTurnCore_players]
          exact updateFirst_map_key _ _ _ _ (fun a => rfl)
        obtain ⟨i, q, hi, hq, hrot⟩ :=
          rotateTurn_spec game.players _ pid player hids hp
        refine ⟨i, q, hi, hq, ?_⟩
        rw [executeTurnCore_currentTurn, hfin, if_neg (by simp), hcur]
        exact hrot

/-- Witness for `c3_win_and_rotation`: Alice's opening move on the tiny
witness game completes no sequence, so the game stays active and the turn
passes to Bob. -/
theorem c3_win_and_rotation_witness :
    (wGame.status = GStatus.active ∧
      wGame.players.find? (fun p => p.playerId == "alice") = some wAlice ∧
      wGame.currentTurnPlayerId = "alice" ∧
      (executeTurn wGame "alice" 0 0 0 5).2.2 = TurnResult.ok) ∧
    ((2 ≤ countSequences (executeTurn wGame "alice" 0 0 0 5).1.sequences
          wAlice.teamColor) →
      (executeTurn wGame "alice" 0 0 0 5).1.status = GStatus.finished ∧
      (executeTurn wGame "alice" 0 0 0 5).1.winnerId = some "alice" ∧
      (executeTurn wGame "alice" 0 0 0 5).1.finishedAt = some 5 ∧
      (executeTurn wGame "alice" 0 0 0 5).1.currentTurnPlayerId =
        wGame.currentTurnPlayerId) ∧
    ((countSequences (executeTurn wGame "alice" 0 0 0 5).1.sequences
          wAlice.teamColor < 2) →
      (executeTurn wGame "alice" 0 0 0 5).1.status = GStatus.active ∧
      (executeTurn wGame "alice" 0 0 0 5).1.winnerId = wGame.winnerId ∧
      (executeTurn wGame "alice" 0 0 0 5).1.finishedAt = wGame.finishedAt ∧
      ∃ (i : Nat) (q : GamePlayer),
        findIndexJS wGame.players (fun p => p.playerId == "alice") = (i : Int) ∧
        wGame.players.get? ((i + 1) % wGame.players.length) = some q ∧
        (executeTurn wGame "alice" 0 0 0 5).1.currentTurnPlayerId = q.playerId) :=
  ⟨⟨rfl, rfl, rfl, rfl⟩,
    c3_win_and_rotation wGame "alice" 0 0 0 5 wAlice rfl rfl rfl rfl⟩

/-! ## Lemmas: hand and deck bookkeeping (C4) -/

theorem nextHand_eq (player : GamePlayer) (n : Nat) (deck : List Card) (cursor : Nat) :
    nextHand player (n : Int) deck cursor =
      player.hand.eraseIdx n ++
        (if cursor < deck.length then (deck.get? cursor).toList else []) := by
  unfold nextHand
  cases hg : deck.get? cursor with
  | none =>
    have h : ¬ cursor < deck.length := by
      have := List.get?_eq_none.mp hg
      omega
    simp [hg, h]
  | some c =>
    have h : cursor < deck.length := get?_eq_some_lt deck cursor c hg
    simp [hg, h]

theorem nextCursor_eq (deck : List Card) (cursor : Nat) :
    nextCursor deck cursor = if cursor < deck.length then cursor + 1 else cursor := by
  unfold nextCursor
  by_cases h : cursor < deck.length
  · obtain ⟨c, hc⟩ := get?_eq_some_of_lt deck cursor h
    simp [hc, h]
  · simp [h]

/-- A turn request, as consumed by `executeTurn`. -/
structure TMove where
  pid : String
  cardIndex : Int
  row : Int
  col : Int
deriving DecidableEq, Repr

/-- Replay a list of turn requests through `executeTurn`. -/
def applyMoves (g : Game) (ms : List TMove) (now : Nat) : Game :=
  ms.foldl (fun g m => (executeTurn g m.pid m.cardIndex m.row m.col now).1) g

/-- All replayed turns succeed. -/
def movesOk : Game → List TMove → Nat → Bool
  | _, [], _ => true
  | g, m :: rest, now =>
    ((executeTurn g m.pid m.cardIndex m.row m.col now).2.2 == TurnResult.ok) &&
      movesOk (executeTurn g m.pid m.cardIndex m.row m.col now).1 rest now

/-- How many of the replayed turns a given player makes at a moment when
the deck is already exhausted (`deckCursor ≥ |deck|`). -/
def exhaustedPlays : Game → List TMove → Nat → String → Nat
  | _, [], _, _ => 0
  | g, m :: rest, now, q =>
    (if q == m.pid && decide (g.shuffledDeck.length ≤ g.deckCursor) then 1 else 0) +
      exhaustedPlays (executeTurn g m.pid m.cardIndex m.row m.col now).1 rest now q

theorem executeTurn_ok_step (g : Game) (pid : String) (ci row col : Int) (now : Nat)
    (hnd : (g.players.map (fun p => p.playerId)).Nodup)
    (hok : (executeTurn g pid ci row col now).2.2 = TurnResult.ok) :
    ((executeTurn g pid ci row col now).1.players.map (fun p => p.playerId) =
      g.players.map (fun p => p.playerId)) ∧
    (executeTurn g pid ci row col now).1.shuffledDeck = g.shuffledDeck ∧
    ∀ (j : Nat) (p' : GamePlayer),
      (executeTurn g pid ci row col now).1.players.get? j = some p' →
      ∃ p, g.players.get? j = some p ∧ p.playerId = p'.playerId ∧
        p.hand.length = p'.hand.length +
          (if p'.playerId == pid && decide (g.shuffledDeck.length ≤ g.deckCursor)
           then 1 else 0) := by
  obtain ⟨player, card, cell, hp, hc, hcell, hv, heq⟩ :=
    executeTurn_ok_inv g pid ci row col now hok
  rw [heq]
  rw [executeTurnCore_players, executeTurnCore_shuffledDeck]
  have hmap := updateFirst_eq_map_of_nodup g.players (fun p => p.playerId) pid
    (fun p => { p with hand := nextHand player ci g.shuffledDeck g.deckCursor }) hnd
  refine ⟨?_, rfl, ?_⟩
  · exact updateFirst_map_key _ _ _ _ (fun a => rfl)
  · intro j p' hg'
    rw [hmap] at hg'
    rw [List.get?_map] at hg'
    cases hg : g.players.get? j with
    | none => rw [hg] at hg'; simp at hg'
    | some p =>
      rw [hg] at hg'
      simp only [Option.map_some', Option.some.injEq] at hg'
      by_cases hkey : (p.playerId == pid) = true
      · have hpp : p = player :=
          get?_find?_nodup g.players (fun q => q.playerId) pid player hnd hp j p hg
            (by simpa using hkey)
        subst hpp
        rw [if_pos hkey] at hg'
        subst hg'
        obtain ⟨n, hn⟩ : ∃ n : Nat, ci = (n : Int) := by
          cases ci with
          | ofNat n => exact ⟨n, rfl⟩
          | negSucc m => simp [listGetInt] at hc
        subst hn
        have hlen : n < p.hand.length := by
          rw [show listGetInt p.hand (n : Int) = p.hand.get? n from rfl] at hc
          exact get?_eq_some_lt p.hand n card hc
        have herase : (p.hand.eraseIdx n).length + 1 = p.hand.length :=
          List.length_eraseIdx_add_one hlen
        refine ⟨p, rfl, rfl, ?_⟩
        simp only [hkey, Bool.true_and]
        rw [nextHand_eq]
        by_cases hcur : g.deckCursor < g.shuffledDeck.length
        · obtain ⟨c, hcard⟩ := get?_eq_some_of_lt g.shuffledDeck g.deckCursor hcur
          have hdec : decide (g.shuffledDeck.length ≤ g.deckCursor) = false := by
            simp
            omega
          rw [hdec]
          simp only [if_pos hcur, hcard, if_false, Bool.false_eq_true]
          simp [Option.toList]
          omega
        · have hdec : decide (g.shuffledDeck.length ≤ g.deckCursor) = true := by
            simp
            omega
          rw [hdec]
          simp only [if_neg hcur, if_true]
          simp
          omega
      · rw [if_neg hkey] at hg'
        subst hg'
        refine ⟨p, rfl, rfl, ?_⟩
        simp [hkey]

theorem replay_hands (now : Nat) :
    ∀ (ms : List TMove) (g : Game),
      (g.players.map (fun p => p.playerId)).Nodup →
      movesOk g ms now = true →
      ((applyMoves g ms now).players.map (fun p => p.playerId) =
        g.players.map (fun p => p.playerId)) ∧
      ∀ (j : Nat) (p' : GamePlayer),
        (applyMoves g ms now).players.get? j = some p' →
        ∃ p, g.players.get? j = some p ∧ p.playerId = p'.playerId ∧
          p.hand.length = p'.hand.length + exhaustedPlays g ms now p'.playerId := by
  intro ms
  induction ms with
  | nil =>
    intro g hnd _
    exact ⟨rfl, fun j p' hg => ⟨p', hg, rfl, by simp [exhaustedPlays]⟩⟩
  | cons m rest ih =>
    intro g hnd hok
    have hok' : ((executeTurn g m.pid m.cardIndex m.row m.col now).2.2 ==
        TurnResult.ok) = true ∧
        movesOk (executeTurn g m.pid m.cardIndex m.row m.col now).1 rest now = true := by
      simpa [movesOk, Bool.and_eq_true] using hok
    have hok1 : (executeTurn g m.pid m.cardIndex m.row m.col now).2.2 =
        TurnResult.ok := by
      have := hok'.1
      simpa using this
    obtain ⟨hids, hdeck, hstep⟩ :=
      executeTurn_ok_step g m.pid m.cardIndex m.row m.col now hnd hok1
    have hnd' : ((executeTurn g m.pid m.cardIndex m.row m.col now).1.players.map
        (fun p => p.playerId)).Nodup := by
      rw [hids]
      exact hnd
    obtain ⟨hids', hrec⟩ :=
      ih (executeTurn g m.pid m.cardIndex m.row m.col now).1 hnd' hok'.2
    have happ : applyMoves g (m :: rest) now =
        applyMoves (executeTurn g m.pid m.cardIndex m.row m.col now).1 rest now := rfl
    constructor
    · rw [happ, hids', hids]
    · intro j p' hg'
      rw [happ] at hg'
      obtain ⟨p1, hg1, hid1, hlen1⟩ := hrec j p' hg'
      obtain ⟨p0, hg0, hid0, hlen0⟩ := hstep j p1 hg1
      refine ⟨p0, hg0, hid0.trans hid1, ?_⟩
      have hexp : exhaustedPlays g (m :: rest) now p'.playerId =
          (if p'.playerId == m.pid && decide (g.shuffledDeck.length ≤ g.deckCursor)
           then 1 else 0) +
            exhaustedPlays (executeTurn g m.pid m.cardIndex m.row m.col now).1 rest
              now p'.playerId := rfl
      rw [hexp]
      rw [hid1] at hlen0
      generalize (if p'.playerId == m.pid && decide (g.shuffledDeck.length ≤ g.deckCursor)
        then 1 else 0) = k at hlen0 ⊢
      omega

/-- C4: every successful turn splices exactly the played card out of the
caller's hand and, when `deckCursor` has not reached the deck's length,
appends the card at `deckCursor` and advances the cursor by one; across any
replay of successful turns from hands of size `handSize(n)`, every player's
hand size stays `handSize(n)` minus one per play that player made after the
deck was exhausted. -/
theorem c4_hand_and_deck :
    (∀ (game : Game) (pid : String) (ci row col : Int) (now : Nat)
        (player : GamePlayer) (card : Card),
      game.players.find? (fun p => p.playerId == pid) = some player →
      listGetInt player.hand ci = some card →
      (executeTurn game pid ci row col now).2.2 = TurnResult.ok →
      ∃ n : Nat, ci = (n : Int) ∧ player.hand.get? n = some card ∧
        (executeTurn game pid ci row col now).1.players.find?
            (fun p => p.playerId == pid) =
          some { player with hand := player.hand.eraseIdx n ++
            (if game.deckCursor < game.shuffledDeck.length
             then (game.shuffledDeck.get? game.deckCursor).toList else []) } ∧
        (executeTurn game pid ci row col now).1.deckCursor =
          (if game.deckCursor < game.shuffledDeck.length
           then game.deckCursor + 1 else game.deckCursor)) ∧
    (∀ (g : Game) (ms : List TMove) (now : Nat),
      (g.players.map (fun p => p.playerId)).Nodup →
      (∀ p ∈ g.players, p.hand.length = getHandSize g.players.length) →
      movesOk g ms now = true →
      ∀ p' ∈ (applyMoves g ms now).players,
        p'.hand.length + exhaustedPlays g ms now p'.playerId =
          getHandSize g.players.length) := by
  constructor
  · intro game pid ci row col now player card hp hc hok
    obtain ⟨player', card', cell', hp', hc', hcell', hv', heq⟩ :=
      executeTurn_ok_inv game pid ci row col now hok
    have hpe : player = player' := by
      rw [hp'] at hp
      exact (Option.some.inj hp).symm
    subst hpe
    have hce : card = card' := by
      rw [hc'] at hc
      exact (Option.some.inj hc).symm
    subst hce
    obtain ⟨n, hn⟩ : ∃ n : Nat, ci = (n : Int) := by
      cases ci with
      | ofNat n => exact ⟨n, rfl⟩
      | negSucc m => simp [listGetInt] at hc
    subst hn
    refine ⟨n, rfl, hc, ?_, ?_⟩
    · rw [heq, executeTurnCore_players,
        updateFirst_find? game.players (fun p => p.playerId == pid)
          (fun p => { p with
            hand := nextHand player (n : Int) game.shuffledDeck game.deckCursor })
          (fun a => rfl), hp']
      simp only [Option.map_some', Option.some.injEq]
      rw [nextHand_eq]
    · rw [heq, executeTurnCore_deckCursor, nextCursor_eq]
  · intro g ms now hnd hinit hok
    intro p' hmem
    obtain ⟨j, hj⟩ := List.get?_of_mem hmem
    obtain ⟨p, hg, hid, hlen⟩ := (replay_hands now ms g hnd hok).2 j p' hj
    have hpmem : p ∈ g.players := List.get?_mem hg
    have := hinit p hpmem
    omega

/-- Alice with a full 7-card opening hand. -/
def wAlice7 : GamePlayer :=
  { wAlice with hand := List.replicate 7 { suit := Suit.spades, rank := Rank.n2 } }

/-- Bob with a full 7-card opening hand. -/
def wBob7 : GamePlayer :=
  { wBob with hand := List.replicate 7 { suit := Suit.hearts, rank := Rank.n3 } }

/-- The witness game with full opening hands. -/
def wGame7 : Game := { wGame with players := [wAlice7, wBob7] }

/-- Witness for `c4_hand_and_deck`: on a concrete game with 7-card hands
and an exhausted deck, Alice's successful play removes exactly her played
card (no draw, cursor unchanged), and after the replay her hand size plus
her one post-exhaustion play equals `handSize(2) = 7`. -/
theorem c4_hand_and_deck_witness :
    (wGame7.players.find? (fun p => p.playerId == "alice") = some wAlice7 ∧
      listGetInt wAlice7.hand 0 = some { suit := Suit.spades, rank := Rank.n2 } ∧
      (executeTurn wGame7 "alice" 0 0 0 5).2.2 = TurnResult.ok ∧
      (wGame7.players.map (fun p => p.playerId)).Nodup ∧
      (∀ p ∈ wGame7.players, p.hand.length = getHandSize wGame7.players.length) ∧
      movesOk wGame7 [{ pid := "alice", cardIndex := 0, row := 0, col := 0 }] 5 = true) ∧
    (∃ n : Nat, (0 : Int) = (n : Int) ∧
      wAlice7.hand.get? n = some { suit := Suit.spades, rank := Rank.n2 } ∧
      (executeTurn wGame7 "alice" 0 0 0 5).1.players.find?
          (fun p => p.playerId == "alice") =
        some { wAlice7 with hand := wAlice7.hand.eraseIdx n ++
          (if wGame7.deckCursor < wGame7.shuffledDeck.length
           then (wGame7.shuffledDeck.get? wGame7.deckCursor).toList else []) } ∧
      (executeTurn wGame7 "alice" 0 0 0 5).1.deckCursor =
        (if wGame7.deckCursor < wGame7.shuffledDeck.length
         then wGame7.deckCursor + 1 else wGame7.deckCursor)) ∧
    (∀ p' ∈ (applyMoves wGame7
        [{ pid := "alice", cardIndex := 0, row := 0, col := 0 }] 5).players,
      p'.hand.length + exhaustedPlays wGame7
          [{ pid := "alice", cardIndex := 0, row := 0, col := 0 }] 5 p'.playerId =
        getHandSize wGame7.players.length) :=
  ⟨⟨rfl, rfl, rfl, by decide, by decide, rfl⟩,
    c4_hand_and_deck.1 wGame7 "alice" 0 0 0 5 wAlice7
      { suit := Suit.spades, rank := Rank.n2 } rfl rfl rfl,
    c4_hand_and_deck.2 wGame7 [{ pid := "alice", cardIndex := 0, row := 0, col := 0 }]
      5 (by decide) (by decide) rfl⟩

/-! ## C6: reserved names at the join handler -/

/-- The empty registry (fresh server). -/
def emptyRegistry : Registry := { names := [], sessions := [] }

/-- C6 (code versus intent): `check-name` declares the reserved name
`admin` unavailable, yet the join handler — which never consults the
reserved list — accepts the very same name on a fresh server, creates a
session and reserves the name. -/
theorem c6_join_accepts_reserved_name :
    checkName emptyRegistry "admin" =
      Except.ok { available := false, reason := some "Name is reserved" } ∧
    (joinServer emptyRegistry "admin" "s1" "p1" 0).2 = Except.ok ("s1", "p1") ∧
    (joinServer emptyRegistry "admin" "s1" "p1" 0).1.names = ["admin"] ∧
    (joinServer emptyRegistry "admin" "s1" "p1" 0).1.sessions =
      [{ sessionId := "s1", playerId := "p1", playerName := "admin",
         createdAt := 0, lastActivity := 0,
         currentRoomId := none, currentGameId := none }] :=
  ⟨rfl, rfl, rfl, rfl⟩

/-! ## C9: cancel-rematch -/

theorem updateFirst_mem_of_neg (l : List α) (p : α → Bool) (f : α → α) (a : α)
    (ha : p a = false) (hmem : a ∈ l) : a ∈ updateFirst l p f := by
  induction l with
  | nil => simp at hmem
  | cons b t ih =>
    by_cases hb : p b = true
    · simp only [updateFirst, hb, if_true]
      rcases List.mem_cons.mp hmem with h | h
      · subst h
        rw [hb] at ha
        simp at ha
      · exact List.mem_cons_of_mem _ h
    · have hb' : p b = false := by revert hb; cases p b <;> simp
      simp only [updateFirst, hb', Bool.false_eq_true, if_false]
      rcases List.mem_cons.mp hmem with h | h
      · exact h ▸ List.mem_cons_self _ _
      · exact List.mem_cons_of_mem _ (ih h)

/-- C9: for every authenticated caller, once the game id resolves,
cancel-rematch succeeds unconditionally — regardless of game status, caller
participation, or whether a rematch state exists — deleting any rematch
state for the game, broadcasting `rematch_cancelled (player_declined)`,
flipping the owning room (when it exists) to `waiting` with its AI members
removed, and clearing `currentGameId` on the caller's session only. -/
theorem c9_cancel_rematch (st : ServerState) (callerSid gameId : String) (game : Game)
    (hg : st.games.find? (fun g => g.id == gameId) = some game) :
    (cancelRematch st callerSid gameId).2.2 = Except.ok () ∧
    (cancelRematch st callerSid gameId).2.1 =
      [Event.rematch_cancelled gameId "player_declined"] ∧
    (∀ r ∈ (cancelRematch st callerSid gameId).1.rematchStates, r.gameId ≠ gameId) ∧
    (cancelRematch st callerSid gameId).1.games = st.games ∧
    (∀ room, st.rooms.find? (fun r => r.id == game.roomId) = some room →
      (cancelRematch st callerSid gameId).1.rooms.find?
          (fun r => r.id == game.roomId) =
        some { room with
          status := RoomStatus.waiting
          players := room.players.filter (fun p => !p.isAI) }) ∧
    ((cancelRematch st callerSid gameId).1.sessions.find?
        (fun s => s.sessionId == callerSid) =
      (st.sessions.find? (fun s => s.sessionId == callerSid)).map
        (fun s => { s with currentGameId := none })) ∧
    (∀ s ∈ st.sessions, (s.sessionId == callerSid) = false →
      s ∈ (cancelRematch st callerSid gameId).1.sessions) := by
  unfold cancelRematch
  simp only [hg]
  refine ⟨by trivial, by trivial, ?_, by trivial, ?_, ?_, ?_⟩
  · intro r hr
    have := List.of_mem_filter hr
    simpa using this
  · intro room hroom
    simp only [hroom]
    have hid : room.id = game.roomId := by
      have := List.find?_some hroom
      simpa using this
    rw [hid]
    rw [updateFirst_find? st.rooms (fun r => r.id == game.roomId)
      (fun r => { r with
        status := RoomStatus.waiting
        players := r.players.filter fun p => !p.isAI })
      (fun a => rfl), hroom]
    simp [hid]
  · rw [updateFirst_find? st.sessions (fun s => s.sessionId == callerSid)
      (fun s => { s with currentGameId := none }) (fun a => rfl)]
  · intro s hs hneq
    exact updateFirst_mem_of_neg _ _ _ s hneq hs

/-- Fixture host room member. -/
def wHost : RoomPlayer :=
  { playerId := "alice", playerName := "Alice", isHost := true, isReady := true,
    isAI := false, team := 1, joinedAt := 0 }

/-- Fixture AI room member. -/
def wAI : RoomPlayer :=
  { playerId := "ai_0", playerName := "Bot 1", isHost := false, isReady := true,
    isAI := true, team := 2, joinedAt := 1 }

/-- Fixture playing room owning the witness game. -/
def wRoom : Room :=
  { id := "r1", name := "Room", rtype := RoomType.oneVone, password := none,
    status := RoomStatus.playing, hostId := "alice", players := [wHost, wAI],
    maxPlayers := 2, gameId := some "g1", createdAt := 0 }

/-- Fixture session of the host. -/
def wSession : ServerSession :=
  { sessionId := "s1", playerId := "alice", playerName := "Alice", createdAt := 0,
    lastActivity := 0, currentRoomId := some "r1", currentGameId := some "g1" }

/-- Fixture rematch state for the witness game. -/
def wRematch : RematchState :=
  { gameId := "g1", active := true, votes := [], deadline := 100, requiredVotes := 1 }

/-- Fixture server state for the cancel-rematch witness. -/
def wState : ServerState :=
  { games := [wGame], rooms := [wRoom], rematchStates := [wRematch],
    sessions := [wSession] }

/-- Witness for `c9_cancel_rematch` on the concrete fixture state (note the
witness game is still `active`, exercising the "regardless of status"
part). -/
theorem c9_cancel_rematch_witness :
    (wState.games.find? (fun g => g.id == "g1") = some wGame) ∧
    (cancelRematch wState "s1" "g1").2.2 = Except.ok () ∧
    (cancelRematch wState "s1" "g1").2.1 =
      [Event.rematch_cancelled "g1" "player_declined"] ∧
    (∀ r ∈ (cancelRematch wState "s1" "g1").1.rematchStates, r.gameId ≠ "g1") ∧
    (∀ room, wState.rooms.find? (fun r => r.id == wGame.roomId) = some room →
      (cancelRematch wState "s1" "g1").1.rooms.find?
          (fun r => r.id == wGame.roomId) =
        some { room with
          status := RoomStatus.waiting
          players := room.players.filter (fun p => !p.isAI) }) :=
  ⟨rfl,
    (c9_cancel_rematch wState "s1" "g1" wGame rfl).1,
    (c9_cancel_rematch wState "s1" "g1" wGame rfl).2.1,
    (c9_cancel_rematch wState "s1" "g1" wGame rfl).2.2.1,
    (c9_cancel_rematch wState "s1" "g1" wGame rfl).2.2.2.2.1⟩

/-! ## C7: host uniqueness across room operations -/

/-- Exactly one room member has `isHost = true` and it carries the room's
`hostId` (the claim's host-uniqueness property). -/
def hostUnique (room : Room) : Prop :=
  (room.players.filter (fun p => p.isHost)).length = 1 ∧
  ∀ p ∈ room.players, p.isHost = true → p.playerId = room.hostId

/-- Every member is an AI and none is a host (the state a room reaches when
its host leaves mid-game and only AI players remain). -/
def allAInoHost (room : Room) : Prop :=
  ∀ p ∈ room.players, p.isAI = true ∧ p.isHost = false

/-- The invariant the room operations actually preserve: either host
uniqueness or an all-AI hostless room; AI members only ever exist in
`playing` rooms; and no surviving room is empty. -/
def roomInv (room : Room) : Prop :=
  (hostUnique room ∨ allAInoHost room) ∧
  ((∃ p ∈ room.players, p.isAI = true) → room.status = RoomStatus.playing) ∧
  room.players ≠ []

theorem filter_eraseIdx_neg (l : List α) (i : Nat) (a : α) (pred : α → Bool)
    (hg : l.get? i = some a) (ha : pred a = false) :
    (l.eraseIdx i).filter pred = l.filter pred := by
  induction l generalizing i with
  | nil => simp [List.get?] at hg
  | cons b t ih =>
    cases i with
    | zero =>
      simp only [List.get?] at hg
      injection hg with hg
      subst hg
      simp [List.eraseIdx, List.filter_cons, ha]
    | succ m =>
      simp only [List.get?] at hg
      simp only [List.eraseIdx, List.filter_cons]
      cases hb : pred b <;> simp [ih m hg]

theorem filter_eraseIdx_pos (l : List α) (i : Nat) (a : α) (pred : α → Bool)
    (hg : l.get? i = some a) (ha : pred a = true) :
    ((l.eraseIdx i).filter pred).length + 1 = (l.filter pred).length := by
  induction l generalizing i with
  | nil => simp [List.get?] at hg
  | cons b t ih =>
    cases i with
    | zero =>
      simp only [List.get?] at hg
      injection hg with hg
      subst hg
      simp [List.eraseIdx, List.filter_cons, ha]
    | succ m =>
      simp only [List.get?] at hg
      simp only [List.eraseIdx, List.filter_cons]
      cases hb : pred b <;> simp [← ih m hg]

theorem mem_of_mem_eraseIdx (l : List α) (i : Nat) (a : α)
    (h : a ∈ l.eraseIdx i) : a ∈ l :=
  (List.eraseIdx_sublist l i).subset h

theorem updateFirst_mem_decomp (l : List α) (q : α → Bool) (f : α → α) (a : α)
    (h : a ∈ updateFirst l q f) :
    a ∈ l ∨ ∃ b, l.find? q = some b ∧ a = f b := by
  induction l with
  | nil => simp [updateFirst] at h
  | cons c t ih =>
    by_cases hc : q c = true
    · simp only [updateFirst, hc, if_true] at h
      rcases List.mem_cons.mp h with h | h
      · exact Or.inr ⟨c, List.find?_cons_of_pos _ hc, h⟩
      · exact Or.inl (List.mem_cons_of_mem _ h)
    · have hc' : q c = false := by revert hc; cases q c <;> simp
      simp only [updateFirst, hc', Bool.false_eq_true, if_false] at h
      rcases List.mem_cons.mp h with h | h
      · exact Or.inl (h ▸ List.mem_cons_self _ _)
      · rcases ih h with h | ⟨b, hb, hab⟩
        · exact Or.inl (List.mem_cons_of_mem _ h)
        · exact Or.inr ⟨b, by rw [List.find?_cons_of_neg _ (by simp [hc'])]; exact hb, hab⟩

theorem updateFirst_length (l : List α) (q : α → Bool) (f : α → α) :
    (updateFirst l q f).length = l.length := by
  induction l with
  | nil => rfl
  | cons c t ih =>
    by_cases hc : q c = true
    · simp [updateFirst, hc]
    · have hc' : q c = false := by revert hc; cases q c <;> simp
      simp [updateFirst, hc', ih]

theorem updateFirst_filter_length_congr (l : List α) (q : α → Bool) (f : α → α)
    (pred : α → Bool) (hf : ∀ a, pred (f a) = pred a) :
    ((updateFirst l q f).filter pred).length = (l.filter pred).length := by
  induction l with
  | nil => rfl
  | cons c t ih =>
    by_cases hc : q c = true
    · simp only [updateFirst, hc, if_true, List.filter_cons, hf c]
      cases hp : pred c <;> simp
    · have hc' : q c = false := by revert hc; cases q c <;> simp
      simp only [updateFirst, hc', Bool.false_eq_true, if_false, List.filter_cons]
      cases hp : pred c <;> simp [ih]

theorem updateFirst_filter_length_set (l : List α) (q : α → Bool) (f : α → α)
    (pred : α → Bool) (b : α)
    (hzero : (l.filter pred).length = 0) (hfind : l.find? q = some b)
    (hset : ∀ a, pred (f a) = true) :
    ((updateFirst l q f).filter pred).length = 1 := by
  induction l with
  | nil => simp at hfind
  | cons c t ih =>
    simp only [List.filter_cons] at hzero
    by_cases hc : q c = true
    · simp only [updateFirst, hc, if_true, List.filter_cons, hset c, if_true]
      cases hp : pred c
      · rw [hp] at hzero
        simp only [Bool.false_eq_true, if_false] at hzero
        simp only [List.length_cons]
        omega
      · rw [hp] at hzero
        simp at hzero
    · have hc' : q c = false := by revert hc; cases q c <;> simp
      rw [List.find?_cons_of_neg _ (by simp [hc'])] at hfind
      simp only [updateFirst, hc', Bool.false_eq_true, if_false, List.filter_cons]
      cases hp : pred c
      · rw [hp] at hzero
        simp only [Bool.false_eq_true, if_false] at hzero ⊢
        exact ih hzero hfind
      · rw [hp] at hzero
        simp at hzero

theorem findIndexJS_spec (l : List α) (p : α → Bool) :
    findIndexJS l p = -1 ∨
    ∃ (i : Nat) (a : α), findIndexJS l p = (i : Int) ∧ l.get? i = some a ∧
      p a = true := by
  induction l with
  | nil => left; rfl
  | cons b t ih =>
    by_cases hb : p b = true
    · right
      exact ⟨0, b, by simp [findIndexJS, hb], rfl, hb⟩
    · have hb' : p b = false := by revert hb; cases p b <;> simp
      rcases ih with h | ⟨i, a, hi, hg, hp⟩
      · left
        simp [findIndexJS, hb', h]
      · right
        refine ⟨i + 1, a, ?_, by simpa using hg, hp⟩
        simp only [findIndexJS, hb', Bool.false_eq_true, if_false, hi]
        have : ¬ ((i : Int) < 0) := by omega
        simp [this]

theorem filter_length_zero_no_mem (l : List α) (pred : α → Bool)
    (h : (l.filter pred).length = 0) : ∀ a ∈ l, pred a = false := by
  intro a ha
  cases hp : pred a with
  | false => rfl
  | true =>
    have : a ∈ l.filter pred := List.mem_filter.mpr ⟨ha, hp⟩
    rw [List.length_eq_zero.mp h] at this
    simp at this

theorem aiFill_shape (now : Nat) (ns : List Nat) :
    ∀ l : List RoomPlayer,
      ∃ suffix, ns.foldl (aiFillStep now) l = l ++ suffix ∧
        ∀ p ∈ suffix, p.isAI = true ∧ p.isHost = false := by
  induction ns with
  | nil => intro l; exact ⟨[], by simp, by simp⟩
  | cons n rest ih =>
    intro l
    obtain ⟨suffix, hs, hai⟩ := ih (aiFillStep now l n)
    obtain ⟨x, hx, hxa, hxh⟩ :
        ∃ x : RoomPlayer, aiFillStep now l n = l ++ [x] ∧
          x.isAI = true ∧ x.isHost = false := ⟨_, rfl, rfl, rfl⟩
    refine ⟨x :: suffix, ?_, ?_⟩
    · rw [List.foldl_cons, hs, hx, List.append_assoc]
      rfl
    · intro p hp
      rcases List.mem_cons.mp hp with h | h
      · exact h ▸ ⟨hxa, hxh⟩
      · exact hai p h

theorem roomInv_mkRoom (roomId name : String) (rtype : RoomType)
    (pw : Option String) (hostPid hostName : String) (now : Nat) :
    roomInv (mkRoom roomId name rtype pw hostPid hostName now) := by
  unfold roomInv hostUnique mkRoom
  refine ⟨Or.inl ⟨?_, ?_⟩, ?_, ?_⟩
  · simp
  · intro p hp hh
    simp only [List.mem_singleton] at hp
    subst hp
    rfl
  · rintro ⟨p, hp, hAI⟩
    simp only [List.mem_singleton] at hp
    subst hp
    simp at hAI
  · simp

theorem roomInv_updateFirst (room : Room) (q : RoomPlayer → Bool)
    (f : RoomPlayer → RoomPlayer)
    (hH : ∀ a, (f a).isHost = a.isHost) (hI : ∀ a, (f a).playerId = a.playerId)
    (hA : ∀ a, (f a).isAI = a.isAI) (hinv : roomInv room) :
    roomInv { room with players := updateFirst room.players q f } := by
  obtain ⟨hdisj, hAIcl, hne⟩ := hinv
  refine ⟨?_, ?_, ?_⟩
  · rcases hdisj with ⟨hcount, hall⟩ | hall
    · left
      refine ⟨?_, ?_⟩
      · show ((updateFirst room.players q f).filter (fun p => p.isHost)).length = 1
        rw [updateFirst_filter_length_congr _ _ _ _ hH]
        exact hcount
      · intro p hp hh
        rcases updateFirst_mem_decomp _ _ _ _ hp with h | ⟨b, hb, rfl⟩
        · exact hall p h hh
        · rw [hI]
          exact hall b (List.mem_of_find?_eq_some hb) (by rw [← hH b]; exact hh)
    · right
      intro p hp
      rcases updateFirst_mem_decomp _ _ _ _ hp with h | ⟨b, hb, rfl⟩
      · exact hall p h
      · have hball := hall b (List.mem_of_find?_eq_some hb)
        exact ⟨by rw [hA]; exact hball.1, by rw [hH]; exact hball.2⟩
  · rintro ⟨p, hp, hAI⟩
    apply hAIcl
    rcases updateFirst_mem_decomp _ _ _ _ hp with h | ⟨b, hb, rfl⟩
    · exact ⟨p, h, hAI⟩
    · exact ⟨b, List.mem_of_find?_eq_some hb, by rw [hA] at hAI; exact hAI⟩
  · intro hnil
    apply hne
    have hlen := congrArg List.length hnil
    rw [updateFirst_length] at hlen
    exact List.length_eq_zero.mp hlen

theorem roomInv_hostUnique_of_waiting (room : Room) (hinv : roomInv room)
    (hw : room.status = RoomStatus.waiting) :
    hostUnique room ∧ ∀ p ∈ room.players, p.isAI = false := by
  obtain ⟨hdisj, hAIcl, hne⟩ := hinv
  have hnoAI : ∀ p ∈ room.players, p.isAI = false := by
    intro p hp
    cases hAI : p.isAI with
    | false => rfl
    | true =>
      have := hAIcl ⟨p, hp, hAI⟩
      rw [hw] at this
      simp at this
  refine ⟨?_, hnoAI⟩
  rcases hdisj with h | hall
  · exact h
  · exfalso
    cases hpl : room.players with
    | nil => exact hne hpl
    | cons a t =>
      have := (hall a (by rw [hpl]; exact List.mem_cons_self _ _)).1
      rw [hnoAI a (by rw [hpl]; exact List.mem_cons_self _ _)] at this
      simp at this

theorem roomInv_join (room : Room) (pid pname : String) (pw : Option String)
    (inRoom : Bool) (now : Nat) (hinv : roomInv room) :
    roomInv (joinRoomOp room pid pname pw inRoom now).1 := by
  unfold joinRoomOp
  by_cases h1 : (room.status != RoomStatus.waiting) = true
  · simp only [h1, if_true]
    exact hinv
  · simp only [h1, Bool.false_eq_true, if_false]
    by_cases h2 : room.maxPlayers ≤ room.players.length
    · simp only [if_pos h2]
      exact hinv
    · simp only [if_neg h2]
      by_cases h3 : (match room.password with
                     | some p => pw != some p
                     | none => false) = true
      · simp only [h3, if_true]
        exact hinv
      · simp only [h3, Bool.false_eq_true, if_false]
        by_cases h4 : inRoom = true
        · simp only [h4, if_true]
          exact hinv
        · simp only [h4, Bool.false_eq_true, if_false]
          have hw : room.status = RoomStatus.waiting := by
            revert h1
            cases room.status <;> simp
          obtain ⟨⟨hcount, hall⟩, hnoAI⟩ := roomInv_hostUnique_of_waiting room hinv hw
          refine ⟨Or.inl ⟨?_, ?_⟩, ?_, ?_⟩
          · have key : ∀ newP : RoomPlayer, newP.isHost = false →
                ((room.players ++ [newP]).filter (fun p => p.isHost)).length = 1 := by
              intro newP hnp
              rw [List.filter_append]
              simp only [List.filter_cons, hnp, Bool.false_eq_true, if_false,
                List.filter_nil]
              simpa using hcount
            exact key _ rfl
          · intro p hp hh
            rcases List.mem_append.mp hp with h | h
            · exact hall p h hh
            · simp only [List.mem_singleton] at h
              subst h
              simp at hh
          · rintro ⟨p, hp, hAI⟩
            exfalso
            rcases List.mem_append.mp hp with h | h
            · rw [hnoAI p h] at hAI
              simp at hAI
            · simp only [List.mem_singleton] at h
              subst h
              simp at hAI
          · simp

theorem roomInv_setReady (room : Room) (pid : String) (ready : Bool)
    (hinv : roomInv room) : roomInv (setReadyOp room pid ready).1 := by
  unfold setReadyOp
  cases hfind : room.players.find? (fun p => p.playerId == pid) with
  | none => exact hinv
  | some player =>
    exact roomInv_updateFirst room _ _ (fun a => rfl) (fun a => rfl) (fun a => rfl) hinv

theorem roomInv_changeTeam (room : Room) (pid : String) (team : Nat)
    (hinv : roomInv room) : roomInv (changeTeamOp room pid team).1 := by
  unfold changeTeamOp
  by_cases h1 : (team != 1 && team != 2) = true
  · simp only [h1, if_true]
    exact hinv
  · simp only [h1, Bool.false_eq_true, if_false]
    by_cases h2 : (room.rtype != RoomType.twoVtwo) = true
    · simp only [h2, if_true]
      exact hinv
    · simp only [h2, Bool.false_eq_true, if_false]
      cases hfind : room.players.find? (fun p => p.playerId == pid) with
      | none => exact hinv
      | some player =>
        by_cases h3 : 2 ≤ (room.players.filter
            fun p => p.team == team && p.playerId != pid).length
        · simp only [if_pos h3]
          exact hinv
        · simp only [if_neg h3]
          exact roomInv_updateFirst room _ _ (fun a => rfl) (fun a => rfl)
            (fun a => rfl) hinv

theorem roomInv_start (room : Room) (caller gid : String) (now : Nat)
    (hinv : roomInv room) : roomInv (startGameOp room caller gid now).1 := by
  unfold startGameOp
  by_cases h1 : (room.hostId != caller) = true
  · simp only [h1, if_true]
    exact hinv
  · simp only [h1, Bool.false_eq_true, if_false]
    by_cases h2 : (room.status != RoomStatus.waiting) = true
    · simp only [h2, if_true]
      exact hinv
    · simp only [h2, Bool.false_eq_true, if_false]
      have hw : room.status = RoomStatus.waiting := by
        revert h2
        cases room.status <;> simp
      obtain ⟨⟨hcount, hall⟩, hnoAI⟩ := roomInv_hostUnique_of_waiting room hinv hw
      obtain ⟨suffix, hs, hai⟩ := aiFill_shape now
        (List.range (room.maxPlayers - room.players.length)) room.players
      refine ⟨Or.inl ⟨?_, ?_⟩, fun _ => rfl, ?_⟩
      · have key : ∀ ps : List RoomPlayer, ps = room.players ++ suffix →
            ((ps.filter (fun p => p.isHost))).length = 1 := by
          rintro ps rfl
          rw [List.filter_append]
          have hnil : suffix.filter (fun p => p.isHost) = [] :=
            List.filter_eq_nil.mpr fun p hp => by simp [(hai p hp).2]
          rw [hnil]
          simpa using hcount
        exact key _ hs
      · intro p hp hh
        have hp' : p ∈ room.players ++ suffix := by
          rw [← hs]
          exact hp
        rcases List.mem_append.mp hp' with h | h
        · exact hall p h hh
        · rw [(hai p h).2] at hh
          simp at hh
      · intro hnil
        have happ : room.players ++ suffix = [] := by
          rw [← hs]
          exact hnil
        rcases List.append_eq_nil.mp happ with ⟨hl, -⟩
        exact hinv.2.2 hl

theorem leaveRoomOp_fst (room : Room) (pid : String) (i : Nat) (a : RoomPlayer)
    (hi : findIndexJS room.players (fun p => p.playerId == pid) = (i : Int))
    (hg : room.players.get? i = some a) :
    (leaveRoomOp room pid).1 =
      (if (room.players.eraseIdx i).isEmpty then none
       else if a.isHost then
         match (room.players.eraseIdx i).find? (fun p => !p.isAI) with
         | some newHost =>
           some { room with
             players := updateFirst (room.players.eraseIdx i) (fun p => !p.isAI)
               (fun p => { p with isHost := true })
             hostId := newHost.playerId }
         | none => some { room with players := room.players.eraseIdx i }
       else some { room with players := room.players.eraseIdx i }) := by
  unfold leaveRoomOp
  rw [hi]
  have hne : ¬ ((i : Int) = -1) := by omega
  simp only [show listGetInt room.players (i : Int) = room.players.get? i from rfl,
    hg, Option.map_some', Option.getD_some, Int.toNat_ofNat, beq_iff_eq, hne,
    if_false]
  by_cases hemp : (room.players.eraseIdx i).isEmpty = true
  · simp [hemp]
  · simp only [hemp, Bool.false_eq_true, if_false]
    cases hwas : a.isHost with
    | false => simp
    | true =>
      cases hf : (room.players.eraseIdx i).find? (fun p => !p.isAI) with
      | none => simp [hf]
      | some newHost => simp [hf]

theorem roomInv_leave (room : Room) (pid : String) (r' : Room)
    (hinv : roomInv room) (h : (leaveRoomOp room pid).1 = some r') : roomInv r' := by
  rcases findIndexJS_spec room.players (fun p => p.playerId == pid) with
    hneg | ⟨i, a, hi, hg, hpa⟩
  · unfold leaveRoomOp at h
    rw [hneg] at h
    simp only [show ((-1 : Int) == (-1 : Int)) = true from rfl, if_true] at h
    injection h with h
    subst h
    exact hinv
  · rw [leaveRoomOp_fst room pid i a hi hg] at h
    by_cases hemp : (room.players.eraseIdx i).isEmpty = true
    · rw [if_pos hemp] at h
      simp at h
    · rw [if_neg hemp] at h
      have hne1 : room.players.eraseIdx i ≠ [] := by
        revert hemp
        cases room.players.eraseIdx i <;> simp
      have hmem_sub : ∀ p ∈ room.players.eraseIdx i, p ∈ room.players :=
        fun p hp => mem_of_mem_eraseIdx _ _ _ hp
      have hAIcl' : (∃ p ∈ room.players.eraseIdx i, p.isAI = true) →
          room.status = RoomStatus.playing := by
        rintro ⟨p, hp, hAI⟩
        exact hinv.2.1 ⟨p, hmem_sub p hp, hAI⟩
      cases hwas : a.isHost with
      | false =>
        rw [hwas] at h
        simp only [Bool.false_eq_true, if_false, Option.some.injEq] at h
        subst h
        refine ⟨?_, hAIcl', hne1⟩
        rcases hinv.1 with ⟨hcount, hall⟩ | hall
        · left
          refine ⟨?_, ?_⟩
          · show ((room.players.eraseIdx i).filter (fun p => p.isHost)).length = 1
            rw [filter_eraseIdx_neg room.players i a _ hg hwas]
            exact hcount
          · intro p hp hh
            exact hall p (hmem_sub p hp) hh
        · right
          intro p hp
          exact hall p (hmem_sub p hp)
      | true =>
        rw [hwas] at h
        simp only [if_true] at h
        have hamem : a ∈ room.players := List.get?_mem hg
        have hHU : hostUnique room := by
          rcases hinv.1 with hh | hall
          · exact hh
          · exfalso
            have := (hall a hamem).2
            rw [hwas] at this
            simp at this
        have hzero : ((room.players.eraseIdx i).filter (fun p => p.isHost)).length = 0 := by
          have h1 := filter_eraseIdx_pos room.players i a (fun p => p.isHost) hg hwas
          have h2 := hHU.1
          omega
        cases hf : (room.players.eraseIdx i).find? (fun p => !p.isAI) with
        | none =>
          rw [hf] at h
          simp only [Option.some.injEq] at h
          subst h
          refine ⟨Or.inr ?_, hAIcl', hne1⟩
          intro p hp
          constructor
          · have := List.find?_eq_none.mp hf p hp
            revert this
            cases p.isAI <;> simp
          · exact filter_length_zero_no_mem _ _ hzero p hp
        | some newHost =>
          rw [hf] at h
          simp only [Option.some.injEq] at h
          subst h
          have hnofilter := filter_length_zero_no_mem _ _ hzero
          refine ⟨Or.inl ⟨?_, ?_⟩, ?_, ?_⟩
          · show ((updateFirst (room.players.eraseIdx i) (fun p => !p.isAI)
                (fun p => { p with isHost := true })).filter
                  (fun p => p.isHost)).length = 1
            exact updateFirst_filter_length_set _ _ _ _ newHost hzero hf
              (fun b => rfl)
          · intro p hp hh
            rcases updateFirst_mem_decomp _ _ _ _ hp with hmem | ⟨b, hb, rfl⟩
            · rw [hnofilter p hmem] at hh
              simp at hh
            · rw [hf] at hb
              injection hb with hb
              subst hb
              rfl
          · rintro ⟨p, hp, hAI⟩
            apply hAIcl'
            rcases updateFirst_mem_decomp _ _ _ _ hp with hmem | ⟨b, hb, rfl⟩
            · exact ⟨p, hmem, hAI⟩
            · rw [hf] at hb
              injection hb with hb
              subst hb
              exact ⟨newHost, List.mem_of_find?_eq_some hf, hAI⟩
          · intro hnil
            apply hne1
            have hlen := congrArg List.length hnil
            rw [updateFirst_length] at hlen
            exact List.length_eq_zero.mp hlen

/-- C7 counterexample: starting from a freshly created 1v1 room, starting
the game (which fills the empty seat with an AI) and then letting the host
leave produces a surviving non-empty room with zero `isHost = true`
members and a stale `hostId` — the claimed host-uniqueness fails after a
room operation. -/
theorem c7_counterexample :
    ((leaveRoomOp
        (startGameOp (mkRoom "r1" "Room" RoomType.oneVone none "alice" "Alice" 0)
          "alice" "g1" 1).1
        "alice").1).map
      (fun r => (r.players.length,
        (r.players.filter (fun p => p.isHost)).length, r.hostId)) =
      some (1, 0, "alice") := rfl

/-- C7 amended: every room operation preserves the invariant that a room
either has exactly one `isHost` member carrying `hostId`, or consists
solely of non-host AI players (which only happens to `playing` rooms, after
the host left a started game); room creation establishes the invariant, a
room that becomes empty on leave is deleted (surviving rooms are
non-empty), and a departing host's role passes to the first remaining
non-AI player when one exists. -/
theorem c7_host_amended :
    (∀ (roomId name : String) (rtype : RoomType) (pw : Option String)
        (hostPid hostName : String) (now : Nat),
      roomInv (mkRoom roomId name rtype pw hostPid hostName now)) ∧
    (∀ (room : Room) (pid pname : String) (pw : Option String) (inRoom : Bool)
        (now : Nat), roomInv room →
      roomInv (joinRoomOp room pid pname pw inRoom now).1) ∧
    (∀ (room : Room) (pid : String) (r' : Room), roomInv room →
      (leaveRoomOp room pid).1 = some r' → roomInv r') ∧
    (∀ (room : Room) (pid : String) (ready : Bool), roomInv room →
      roomInv (setReadyOp room pid ready).1) ∧
    (∀ (room : Room) (pid : String) (team : Nat), roomInv room →
      roomInv (changeTeamOp room pid team).1) ∧
    (∀ (room : Room) (caller gid : String) (now : Nat), roomInv room →
      roomInv (startGameOp room caller gid now).1) ∧
    (∀ (room : Room) (pid : String) (i : Nat) (a : RoomPlayer)
        (newHost : RoomPlayer),
      findIndexJS room.players (fun p => p.playerId == pid) = (i : Int) →
      room.players.get? i = some a → a.isHost = true →
      (room.players.eraseIdx i).find? (fun p => !p.isAI) = some newHost →
      ∀ r', (leaveRoomOp room pid).1 = some r' → r'.hostId = newHost.playerId) :=
  ⟨roomInv_mkRoom,
   roomInv_join,
   fun room pid r' hinv h => roomInv_leave room pid r' hinv h,
   roomInv_setReady,
   roomInv_changeTeam,
   roomInv_start,
   fun room pid i a newHost hi hg hwas hf r' h => by
     rw [leaveRoomOp_fst room pid i a hi hg] at h
     by_cases hemp : (room.players.eraseIdx i).isEmpty = true
     · rw [if_pos hemp] at h
       simp at h
     · rw [if_neg hemp, if_pos hwas] at h
       simp only [hf, Option.some.injEq] at h
       subst h
       rfl⟩

/-- Witness for `c7_host_amended`: the fixture playing room (one human
host plus one AI) satisfies the invariant, and it is preserved when the AI
member is removed by a leave. -/
theorem c7_host_amended_witness :
    (roomInv wRoom ∧ (leaveRoomOp wRoom "ai_0").1 = some { wRoom with players := [wHost] }) ∧
    roomInv { wRoom with players := [wHost] } :=
  ⟨⟨by unfold roomInv hostUnique allAInoHost; decide, rfl⟩,
    c7_host_amended.2.2.1 wRoom "ai_0" { wRoom with players := [wHost] }
      (by unfold roomInv hostUnique allAInoHost; decide) rfl⟩

end SequenceWeb
